import Mathlib

/-!
Skanner: the per-line quotation-mark scanner of `main.go`.

A shallow embedding of the detection core of `main.go` (pattern registry,
legitimacy filter, balance checker, line-length check, aggregation and exit
code) together with theorems about it.

Conventions of the embedding.

* A Go `string` holding a line of text is the list of its runes, `Line`.  Go
  iterates a string rune by rune (`for _, r := range line`) and the `regexp`
  package matches rune by rune, so this is the view the code itself takes.  The
  lines considered are well-formed UTF-8.
* `len(s)` of a Go string is its length in bytes: `goLen`.
* Byte offsets and byte slices (`truncateString`, the column of a match) are
  taken on the UTF-8 encoding `utf8Bytes`.
* Go `int` values are `Int`.  No arithmetic of the modelled code can overflow on
  a line that fits in memory.
* `unicode.IsLetter` and `unicode.Latin` belong to the Go standard library; they
  are the two fields of `UnicodeTables`, a parameter of the functions that
  consult them.
-/

namespace Skanner

/-! ## Strings -/

/-- A line of text: the runes of a Go string. -/
abbrev Line := List Char

/-- The UTF-8 encoding of a line, the bytes a Go string is made of. -/
def utf8Bytes (s : Line) : List UInt8 :=
  s.flatMap String.utf8EncodeChar

/-- Go `len(s)`: the number of bytes of the string. -/
def goLen (s : Line) : Int :=
  ((utf8Bytes s).length : Int)

/-- Go `strings.Contains(s, sub)`. -/
def stringsContains (s sub : Line) : Bool :=
  s.tails.any (fun t => sub.isPrefixOf t)

/-- The two classifications of `package unicode` that the scanner consults. -/
structure UnicodeTables where
  /-- Go `unicode.IsLetter(r)`. -/
  IsLetter : Char → Bool
  /-- Go `unicode.Is(unicode.Latin, r)`. -/
  IsLatin : Char → Bool

/-! ## The balance checker -/

/-- Go `quotes[r]++` on a `map[rune]int`, the map kept as an association list. -/
def incrCount : List (Char × Nat) → Char → List (Char × Nat)
  | [], r => [(r, 1)]
  | (k, v) :: m, r => if k = r then (k, v + 1) :: m else (k, v) :: incrCount m r

/-- The first loop of `hasBalancedQuotes`: the normalised quote characters of
the line, in order. -/
def quoteStack (line : Line) : List Char :=
  line.foldl (fun stack r =>
    if r = '"' ∨ r = '“' ∨ r = '”' then stack ++ ['"']
    else if r = '\'' ∨ r = '‘' ∨ r = '’' then stack ++ ['\'']
    else if r = '`' then stack ++ ['`']
    else stack) []

/-- The second loop of `hasBalancedQuotes`: the occurrences of each rune of the
stack. -/
def quoteCounts (stack : List Char) : List (Char × Nat) :=
  stack.foldl incrCount []

/-- Go `hasBalancedQuotes`. -/
def hasBalancedQuotes (line : Line) : Bool :=
  (quoteCounts (quoteStack line)).all (fun kv => decide (kv.2 % 2 = 0))

/-! ## Quote families (used to state the properties) -/

/-- Straight double quote or one of the two curly double quotes. -/
def isDoubleFamily (r : Char) : Bool :=
  decide (r = '"' ∨ r = '“' ∨ r = '”')

/-- Straight single quote or one of the two curly single quotes. -/
def isSingleFamily (r : Char) : Bool :=
  decide (r = '\'' ∨ r = '‘' ∨ r = '’')

/-- The backtick. -/
def isBacktick (r : Char) : Bool :=
  decide (r = '`')

/-! ## Regular expressions

The fragment of the Go `regexp` pattern language that the registry uses.  Go compiles a
pattern with the Perl flags: a negated class matches every other rune, the
newline included, and `^` and `$` match at the two ends of the text only. -/

/-- The patterns, as trees. -/
inductive Regex where
  /-- One literal rune. -/
  | lit (c : Char)
  /-- A class `[...]`, given by its listed runes. -/
  | cls (cs : List Char)
  /-- A negated class `[^...]`. -/
  | ncls (cs : List Char)
  /-- The anchor `^`. -/
  | bol
  /-- The anchor `$`. -/
  | eol
  /-- Concatenation. -/
  | cat (r t : Regex)
  /-- Alternation `r|t`. -/
  | alt (r t : Regex)
  /-- Greedy repetition `r*`. -/
  | star (r : Regex)

/-- End positions of `r*` started at `i`, when `step j` lists the end positions
of one `r` started at `j`: longer repetitions first, an iteration that consumes
nothing is not repeated.  `fuel` bounds the number of iterations. -/
def starEnds (step : Nat → List Nat) : Nat → Nat → List Nat
  | 0, i => [i]
  | fuel + 1, i => ((step i).filter (fun j => i < j)).flatMap (starEnds step fuel) ++ [i]

/-- The rune positions at which a match of the pattern that starts at position
`i` of `s` can end, in the order in which a backtracking matcher finds them. -/
def Regex.ends (s : Line) : Regex → Nat → List Nat
  | .lit c => fun i => if s[i]? = some c then [i + 1] else []
  | .cls cs => fun i =>
      match s[i]? with
      | some c => if c ∈ cs then [i + 1] else []
      | none => []
  | .ncls cs => fun i =>
      match s[i]? with
      | some c => if c ∈ cs then [] else [i + 1]
      | none => []
  | .bol => fun i => if i = 0 then [i] else []
  | .eol => fun i => if i = s.length then [i] else []
  | .cat r t => fun i => (Regex.ends s r i).flatMap (Regex.ends s t)
  | .alt r t => fun i => Regex.ends s r i ++ Regex.ends s t i
  | .star r => fun i => starEnds (Regex.ends s r) s.length i

/-- Go `(*Regexp).MatchString`: the pattern matches somewhere in the text. -/
def Regex.MatchString (r : Regex) (s : Line) : Bool :=
  (List.range (s.length + 1)).any (fun i => !(r.ends s i).isEmpty)

/-- Go `(*Regexp).FindStringIndex`: the byte offsets of the start and of the end
of the leftmost match, or the empty slice when there is none. -/
def Regex.FindStringIndex (r : Regex) (s : Line) : List Int :=
  match (List.range (s.length + 1)).find? (fun i => !(r.ends s i).isEmpty) with
  | none => []
  | some i =>
      match r.ends s i with
      | [] => []
      | j :: _ => [goLen (s.take i), goLen (s.take j)]

/-! ## Data model -/

/-- Go `QuotationMark`. -/
structure QuotationMark where
  /-- The field `Type` of the Go struct. -/
  Typ : String
  Description : String
  Pattern : Regex
  Replacement : String

/-- Go `Issue`. -/
structure Issue where
  Line : Int
  Column : Int
  /-- The field `Type` of the Go struct. -/
  Typ : String
  Message : String
  /-- A byte string: truncation may cut a rune. -/
  Context : List UInt8
  Severity : String
  deriving DecidableEq

/-- Go `ScanResult`. -/
structure ScanResult where
  FilePath : String
  Issues : List Issue

/-- Go `Config`. -/
structure Config where
  IncludePatterns : List String
  ExcludePatterns : List String
  QuotationMarks : List QuotationMark
  MaxLineLength : Int
  Verbose : Bool
  Fix : Bool
  ExitOnError : Bool

/-- What opening and reading a file gives: `os.Open` fails, or the scanner
yields the lines and then possibly reports an error (`scanner.Err()`). -/
inductive FileRead where
  | openError (err : String)
  | content (lines : List Line) (scanErr : Option String)

/-! ## The pattern registry -/

/-- The first entry of the list `initializeQuotationMarks` returns; its pattern
is the class `[""]`, whose two members are both the straight double quote
U+0022. -/
def smartQuotesMark : QuotationMark :=
  { Typ := "smart_quotes"
    Description := "Smart quotes (curly quotes)"
    Pattern := .cls ['"', '"']
    Replacement := "\"" }

/-- The second entry; its pattern is the class `['']`, whose two members are
both the straight single quote U+0027. -/
def smartSingleQuotesMark : QuotationMark :=
  { Typ := "smart_single_quotes"
    Description := "Smart single quotes (curly apostrophes)"
    Pattern := .cls ['\'', '\'']
    Replacement := "'" }

/-- The third entry, with the pattern `"[^"]*B[^"]*"` where `B` is the
backtick. -/
def backticksInStringsMark : QuotationMark :=
  { Typ := "backticks_in_strings"
    Description := "Backticks in string literals (potential template literal)"
    Pattern := .cat (.lit '"') (.cat (.star (.ncls ['"'])) (.cat (.lit '`')
      (.cat (.star (.ncls ['"'])) (.lit '"'))))
    Replacement := "" }

/-- The fourth entry, with the pattern `"[^"]*'[^"]*"|'[^']*"[^']*'`. -/
def mixedQuotesMark : QuotationMark :=
  { Typ := "mixed_quotes"
    Description := "Mixed quote types in same string"
    Pattern := .alt
      (.cat (.lit '"') (.cat (.star (.ncls ['"'])) (.cat (.lit '\'')
        (.cat (.star (.ncls ['"'])) (.lit '"')))))
      (.cat (.lit '\'') (.cat (.star (.ncls ['\''])) (.cat (.lit '"')
        (.cat (.star (.ncls ['\''])) (.lit '\'')))))
    Replacement := "" }

/-- The fifth entry, with the pattern `^[^"]*"[^"]*$|^[^']*'[^']*$`. -/
def unmatchedQuotesMark : QuotationMark :=
  { Typ := "unmatched_quotes"
    Description := "Unmatched quotes"
    Pattern := .alt
      (.cat .bol (.cat (.star (.ncls ['"'])) (.cat (.lit '"')
        (.cat (.star (.ncls ['"'])) .eol))))
      (.cat .bol (.cat (.star (.ncls ['\''])) (.cat (.lit '\'')
        (.cat (.star (.ncls ['\''])) .eol))))
    Replacement := "" }

/-- Go `initializeQuotationMarks`. -/
def initializeQuotationMarks : List QuotationMark :=
  [smartQuotesMark, smartSingleQuotesMark, backticksInStringsMark, mixedQuotesMark,
    unmatchedQuotesMark]

/-! ## The legitimacy filter -/

/-- Go `containsInternationalText`. -/
def containsInternationalText (U : UnicodeTables) (line : Line) : Bool :=
  line.any (fun r => U.IsLetter r && !U.IsLatin r)

/-- Go `isLegitimateUse`. -/
def isLegitimateUse (U : UnicodeTables) (line : Line) (qm : QuotationMark) : Bool :=
  if qm.Typ = "smart_quotes" then
    if stringsContains line ['/', '/'] || stringsContains line ['/', '*']
        || stringsContains line ['#'] then true
    else if containsInternationalText U line then true
    else false
  else if qm.Typ = "smart_single_quotes" then
    if stringsContains line ['\'', 's'] || stringsContains line ['\'', 't']
        || stringsContains line ['\'', 'r', 'e'] then true
    else false
  else false

/-! ## Helpers of the scan -/

/-- Go `findFirstMatch`. -/
def findFirstMatch (line : Line) (pattern : Regex) : Int :=
  match pattern.FindStringIndex line with
  | [] => 1
  | start :: _ => start + 1

/-- The bytes of the literal `"..."`. -/
def ellipsis : List UInt8 := [46, 46, 46]

/-- Go `truncateString`, on the bytes of the string. -/
def truncateString (s : List UInt8) (maxLen : Int) : List UInt8 :=
  if (s.length : Int) ≤ maxLen then s
  else if maxLen ≤ 3 then ellipsis
  else s.take (maxLen - 3).toNat ++ ellipsis

/-! ## Scanning a file -/

/-- The line-length check of the loop body of `scanFile`. -/
def lengthIssues (config : Config) (lineNum : Int) (line : Line) : List Issue :=
  if goLen line > config.MaxLineLength then
    [ { Line := lineNum
        Column := config.MaxLineLength + 1
        Typ := "line_length"
        Message := "Line exceeds maximum length (" ++ toString (goLen line) ++ " > "
          ++ toString config.MaxLineLength ++ ")"
        Context := truncateString (utf8Bytes line) 50
        Severity := "warning" } ]
  else []

/-- One iteration of the loop over `config.QuotationMarks` in `scanFile`. -/
def markIssue (U : UnicodeTables) (lineNum : Int) (line : Line) (qm : QuotationMark) :
    List Issue :=
  if qm.Pattern.MatchString line then
    if !isLegitimateUse U line qm then
      [ { Line := lineNum
          Column := findFirstMatch line qm.Pattern
          Typ := qm.Typ
          Message := qm.Description
          Context := truncateString (utf8Bytes line) 80
          Severity := "warning" } ]
    else []
  else []

/-- The loop over `config.QuotationMarks` in `scanFile`. -/
def markIssues (U : UnicodeTables) (config : Config) (lineNum : Int) (line : Line) :
    List Issue :=
  config.QuotationMarks.flatMap (markIssue U lineNum line)

/-- The balance check of the loop body of `scanFile`. -/
def balanceIssues (lineNum : Int) (line : Line) : List Issue :=
  if !hasBalancedQuotes line then
    [ { Line := lineNum
        Column := 1
        Typ := "unbalanced_quotes"
        Message := "Unbalanced quotes detected"
        Context := truncateString (utf8Bytes line) 80
        Severity := "error" } ]
  else []

/-- The issues that one iteration of the loop of `scanFile` appends, for the
line numbered `lineNum`. -/
def scanLine (U : UnicodeTables) (config : Config) (lineNum : Int) (line : Line) :
    List Issue :=
  lengthIssues config lineNum line ++ markIssues U config lineNum line
    ++ balanceIssues lineNum line

/-- The loop `for scanner.Scan()` of `scanFile`: `lineNum` lines were read and
`issues` collected, `lines` remain. -/
def scanLoop (U : UnicodeTables) (config : Config) :
    Int → List Issue → List Line → List Issue
  | _, issues, [] => issues
  | lineNum, issues, line :: rest =>
      scanLoop U config (lineNum + 1) (issues ++ scanLine U config (lineNum + 1) line) rest

/-- Go `scanFile`, on what reading the file at `filePath` gives. -/
def scanFile (U : UnicodeTables) (filePath : String) (file : FileRead) (config : Config) :
    ScanResult :=
  match file with
  | .openError err =>
      { FilePath := filePath
        Issues := [ { Line := 0, Column := 0, Typ := "file_error"
                      Message := "Could not open file: " ++ err
                      Context := []
                      Severity := "error" } ] }
  | .content lines scanErr =>
      let issues := scanLoop U config 0 [] lines
      { FilePath := filePath
        Issues :=
          match scanErr with
          | some err =>
              issues ++ [ { Line := 0, Column := 0, Typ := "scan_error"
                            Message := "Error scanning file: " ++ err
                            Context := []
                            Severity := "error" } ]
          | none => issues }

/-! ## The exit code of `main` -/

/-- The state of the loop over the files in `main`. -/
structure MainState where
  allResults : List ScanResult
  totalIssues : Int
  hasErrors : Bool

/-- One iteration of the loop over the files in `main`. -/
def mainStep (U : UnicodeTables) (config : Config) (st : MainState)
    (file : String × FileRead) : MainState :=
  let result := scanFile U file.1 file.2 config
  if result.Issues.length > 0 then
    { allResults := st.allResults ++ [result]
      totalIssues := st.totalIssues + result.Issues.length
      hasErrors := result.Issues.foldl
        (fun hasErrors issue => if issue.Severity = "error" then true else hasErrors)
        st.hasErrors }
  else st

/-- The exit code of `main` after scanning `files` (each a path with what reading
it gives); falling off the end of `main` is exit code 0. -/
def mainExitCode (U : UnicodeTables) (config : Config) (files : List (String × FileRead)) :
    Int :=
  let st := files.foldl (mainStep U config) { allResults := [], totalIssues := 0, hasErrors := false }
  if st.hasErrors && config.ExitOnError then 1
  else if st.totalIssues > 0 then 2
  else 0

/-- The configuration `main` builds from the default flags, with the given
maximum line length and exit-on-error flag. -/
def defaultConfig (maxLineLength : Int) (exitOnError : Bool) : Config :=
  { IncludePatterns := ["**/*.{go,js,ts,jsx,tsx,py,java,cpp,c,h,md,txt}"]
    ExcludePatterns := ["**/vendor/**", "**/node_modules/**", "**/.git/**"]
    QuotationMarks := initializeQuotationMarks
    MaxLineLength := maxLineLength
    Verbose := false
    Fix := false
    ExitOnError := exitOnError }

/-- An excerpt of the Unicode tables, enough to evaluate examples: the letters
of ASCII, Latin-1, Greek, Cyrillic, kana and the CJK unified ideographs, of
which the ASCII and Latin-1 ones are in the Latin script. -/
def sampleTables : UnicodeTables where
  IsLetter := fun r =>
    let n := r.toNat
    (65 ≤ n && n ≤ 90) || (97 ≤ n && n ≤ 122) || n == 170 || n == 181 || n == 186
      || (192 ≤ n && n ≤ 214) || (216 ≤ n && n ≤ 246) || (248 ≤ n && n ≤ 255)
      || (880 ≤ n && n ≤ 883) || (902 ≤ n && n ≤ 1023 && n != 903 && n != 907 && n != 909
          && n != 930 && n != 1014)
      || (1024 ≤ n && n ≤ 1153) || (1162 ≤ n && n ≤ 1279)
      || (12353 ≤ n && n ≤ 12438) || (12449 ≤ n && n ≤ 12538)
      || (19968 ≤ n && n ≤ 40959)
  IsLatin := fun r =>
    let n := r.toNat
    (65 ≤ n && n ≤ 90) || (97 ≤ n && n ≤ 122) || n == 170 || n == 186
      || (192 ≤ n && n ≤ 214) || (216 ≤ n && n ≤ 246) || (248 ≤ n && n ≤ 255)

/-! ## Auxiliary definitions for the statements and proofs -/

/-- The value the association list gives to a key, 0 when the key is absent. -/
def countAt : List (Char × Nat) → Char → Nat
  | [], _ => 0
  | (k, v) :: m, r => if k = r then v else countAt m r

/-- What the first loop of `hasBalancedQuotes` pushes for one rune. -/
def pushed (r : Char) : List Char :=
  if r = '"' ∨ r = '“' ∨ r = '”' then ['"']
  else if r = '\'' ∨ r = '‘' ∨ r = '’' then ['\'']
  else if r = '`' then ['`']
  else []

/-- The issues of the lines `lines`, the first of which is numbered
`lineNum + 1`: what the loop of `scanFile` appends. -/
def scanFrom (U : UnicodeTables) (config : Config) : Int → List Line → List Issue
  | _, [] => []
  | lineNum, line :: rest =>
      scanLine U config (lineNum + 1) line ++ scanFrom U config (lineNum + 1) rest

/-- The issues of a scan result that are of kind `kind` and at line `lineNum`. -/
def issuesAt (issues : List Issue) (kind : String) (lineNum : Int) : List Issue :=
  issues.filter (fun issue => decide (issue.Typ = kind ∧ issue.Line = lineNum))

/-- The issues collected over all the files `main` scans. -/
def allIssues (U : UnicodeTables) (config : Config) (files : List (String × FileRead)) :
    List Issue :=
  files.flatMap (fun file => (scanFile U file.1 file.2 config).Issues)

/-- The issue with its line number increased by `k`. -/
def shiftLine (k : Int) (issue : Issue) : Issue :=
  { issue with Line := issue.Line + k }

/-- The place of a kind of issue in the order of the checks that the loop body
of `scanFile` runs on one line, with the default registry. -/
def kindRank (kind : String) : Nat :=
  if kind = "line_length" then 0
  else if kind = "smart_quotes" then 1
  else if kind = "smart_single_quotes" then 2
  else if kind = "backticks_in_strings" then 3
  else if kind = "mixed_quotes" then 4
  else if kind = "unmatched_quotes" then 5
  else if kind = "unbalanced_quotes" then 6
  else 7

/-- The issue `a` comes strictly before `b`: an earlier line, or the same line
and an earlier check. -/
def issueBefore (a b : Issue) : Prop :=
  a.Line < b.Line ∨ (a.Line = b.Line ∧ kindRank a.Typ < kindRank b.Typ)

/-- The `unbalanced_quotes` issue that `scanFile` reports on the first line of a
file when that line is `"a`. -/
def unbalancedSample : Issue :=
  { Line := 1
    Column := 1
    Typ := "unbalanced_quotes"
    Message := "Unbalanced quotes detected"
    Context := utf8Bytes ['"', 'a']
    Severity := "error" }

/-- Line 24 of `sample_issues.go`, which its comment on line 23 calls fine:
a tab followed by `fmt.Println("This is correct")`. -/
def sampleFineLine : Line :=
  ['\t', 'f', 'm', 't', '.', 'P', 'r', 'i', 'n', 't', 'l', 'n', '(', '"', 'T', 'h', 'i', 's',
    ' ', 'i', 's', ' ', 'c', 'o', 'r', 'r', 'e', 'c', 't', '"', ')']

/-! ## Lemmas on the balance checker -/

theorem countAt_incrCount (m : List (Char × Nat)) (r k : Char) :
    countAt (incrCount m r) k = countAt m k + (if r = k then 1 else 0) := by
  induction m with
  | nil => simp [incrCount, countAt]
  | cons kv m ih =>
    obtain ⟨k', v⟩ := kv
    by_cases h : k' = r
    · subst h
      by_cases hk : k' = k <;> simp [incrCount, countAt, hk]
    · by_cases hk : k' = k
      · subst hk
        have : ¬ r = k' := fun e => h e.symm
        simp [incrCount, countAt, h, this]
      · simp [incrCount, countAt, h, hk, ih]

theorem keys_incrCount (m : List (Char × Nat)) (r : Char) :
    (incrCount m r).map Prod.fst
      = if r ∈ m.map Prod.fst then m.map Prod.fst else m.map Prod.fst ++ [r] := by
  induction m with
  | nil => simp [incrCount]
  | cons kv m ih =>
    obtain ⟨k', v⟩ := kv
    by_cases h : k' = r
    · subst h
      simp [incrCount]
    · have h' : ¬ r = k' := fun e => h e.symm
      simp only [incrCount, h, if_false, List.map_cons, ih, List.mem_cons, h', false_or]
      split <;> simp

theorem nodup_keys_incrCount (m : List (Char × Nat)) (r : Char)
    (h : (m.map Prod.fst).Nodup) : ((incrCount m r).map Prod.fst).Nodup := by
  rw [keys_incrCount]
  split
  · exact h
  · rename_i hr
    rw [List.nodup_append]
    refine ⟨h, List.nodup_singleton r, ?_⟩
    intro a ha hb
    simp only [List.mem_singleton] at hb
    subst hb
    exact hr ha

theorem countAt_of_mem (m : List (Char × Nat)) (h : (m.map Prod.fst).Nodup)
    (k : Char) (v : Nat) (hm : (k, v) ∈ m) : countAt m k = v := by
  induction m with
  | nil => simp at hm
  | cons kv m ih =>
    obtain ⟨k', v'⟩ := kv
    simp only [List.map_cons, List.nodup_cons] at h
    simp only [List.mem_cons, Prod.mk.injEq] at hm
    rcases hm with ⟨e1, e2⟩ | hm
    · subst e1 e2
      simp [countAt]
    · have hne : ¬ k' = k := by
        intro e
        subst e
        exact h.1 (List.mem_map.2 ⟨(k', v), hm, rfl⟩)
      simp [countAt, hne, ih h.2 hm]

theorem countAt_eq_zero_or_mem (m : List (Char × Nat)) (k : Char) :
    countAt m k = 0 ∨ (k, countAt m k) ∈ m := by
  induction m with
  | nil => simp [countAt]
  | cons kv m ih =>
    obtain ⟨k', v'⟩ := kv
    by_cases h : k' = k
    · subst h
      simp [countAt]
    · rcases ih with ih | ih
      · left
        simp [countAt, h, ih]
      · right
        simp [countAt, h, ih]

theorem foldl_incrCount_inv (stack : List Char) (m : List (Char × Nat))
    (h : (m.map Prod.fst).Nodup) :
    ((stack.foldl incrCount m).map Prod.fst).Nodup
      ∧ ∀ k, countAt (stack.foldl incrCount m) k = countAt m k + stack.count k := by
  induction stack generalizing m with
  | nil => simp [h]
  | cons r stack ih =>
    obtain ⟨h1, h2⟩ := ih (incrCount m r) (nodup_keys_incrCount m r h)
    refine ⟨h1, fun k => ?_⟩
    rw [List.foldl_cons, h2 k, countAt_incrCount, List.count_cons]
    by_cases e : r = k <;> simp [e]; omega

/-- The map that `hasBalancedQuotes` iterates has only even values exactly when
every rune occurs an even number of times in the stack. -/
theorem quoteCounts_all_even (stack : List Char) :
    (quoteCounts stack).all (fun kv => decide (kv.2 % 2 = 0)) = true
      ↔ ∀ k, stack.count k % 2 = 0 := by
  obtain ⟨h1, h2⟩ := foldl_incrCount_inv stack [] (by simp)
  simp only [countAt, Nat.zero_add] at h2
  simp only [List.all_eq_true, decide_eq_true_eq, quoteCounts]
  constructor
  · intro h k
    rw [← h2 k]
    rcases countAt_eq_zero_or_mem (stack.foldl incrCount []) k with e | e
    · simp [e]
    · exact h _ e
  · rintro h ⟨k, v⟩ hm
    have := countAt_of_mem _ h1 k v hm
    rw [h2 k] at this
    simpa [← this] using h k

theorem quoteStack_eq (line : Line) : quoteStack line = line.flatMap pushed := by
  have key : ∀ (l : Line) (acc : List Char),
      l.foldl (fun stack r =>
        if r = '"' ∨ r = '“' ∨ r = '”' then stack ++ ['"']
        else if r = '\'' ∨ r = '‘' ∨ r = '’' then stack ++ ['\'']
        else if r = '`' then stack ++ ['`']
        else stack) acc = acc ++ l.flatMap pushed := by
    intro l
    induction l with
    | nil => simp
    | cons r l ih =>
      intro acc
      rw [List.foldl_cons, ih, List.flatMap_cons]
      unfold pushed
      split
      · simp
      · split
        · simp
        · split <;> simp
  simpa [quoteStack] using key line []

theorem count_quoteStack (line : Line) (k : Char) :
    (quoteStack line).count k
      = if k = '"' then line.countP isDoubleFamily
        else if k = '\'' then line.countP isSingleFamily
        else if k = '`' then line.countP isBacktick
        else 0 := by
  rw [quoteStack_eq]
  induction line with
  | nil => simp
  | cons r line ih =>
    rw [List.flatMap_cons, List.count_append, ih]
    simp only [List.countP_cons, isDoubleFamily, isSingleFamily, isBacktick, pushed]
    by_cases h1 : r = '"' ∨ r = '“' ∨ r = '”'
    · have h2 : ¬ (r = '\'' ∨ r = '‘' ∨ r = '’') := by
        rcases h1 with h | h | h <;> subst h <;> decide
      have h3 : ¬ r = '`' := by
        rcases h1 with h | h | h <;> subst h <;> decide
      simp only [h1, h2, h3, if_true, if_false, decide_True, decide_False]
      by_cases e1 : k = '"'
      · subst e1; simp [Nat.add_comm]
      · have : ¬ '"' = k := fun e => e1 e.symm
        simp [e1, this, List.count_cons]
    · by_cases h2 : r = '\'' ∨ r = '‘' ∨ r = '’'
      · have h3 : ¬ r = '`' := by
          rcases h2 with h | h | h <;> subst h <;> decide
        simp only [h1, h2, h3, if_true, if_false, decide_True, decide_False]
        by_cases e1 : k = '"'
        · subst e1; simp
        · by_cases e2 : k = '\''
          · subst e2; simp [Nat.add_comm]
          · have : ¬ '\'' = k := fun e => e2 e.symm
            simp [e1, e2, this, List.count_cons]
      · by_cases h3 : r = '`'
        · simp only [h1, h2, h3, if_true, if_false, decide_True, decide_False]
          by_cases e1 : k = '"'
          · subst e1; simp
          · by_cases e2 : k = '\''
            · subst e2; simp
            · by_cases e3 : k = '`'
              · subst e3; simp [Nat.add_comm]
              · have : ¬ '`' = k := fun e => e3 e.symm
                simp [e1, e2, e3, this, List.count_cons]
        · simp only [h1, h2, h3, if_false, decide_False]
          simp

/-- Characterisation of the balance checker by the parities of the three
families. -/
theorem hasBalancedQuotes_iff (line : Line) :
    hasBalancedQuotes line = true
      ↔ line.countP isDoubleFamily % 2 = 0 ∧ line.countP isSingleFamily % 2 = 0
          ∧ line.countP isBacktick % 2 = 0 := by
  unfold hasBalancedQuotes
  rw [quoteCounts_all_even]
  constructor
  · intro h
    have a := h '"'
    have b := h '\''
    have c := h '`'
    rw [count_quoteStack] at a b c
    simp only [if_true] at a
    rw [if_neg (by decide), if_pos rfl] at b
    rw [if_neg (by decide), if_neg (by decide), if_pos rfl] at c
    exact ⟨a, b, c⟩
  · rintro ⟨a, b, c⟩ k
    rw [count_quoteStack]
    split
    · exact a
    · split
      · exact b
      · split
        · exact c
        · rfl

/-! ## Lemmas on patterns and substrings -/

theorem stringsContains_iff (s sub : Line) :
    stringsContains s sub = true ↔ sub <:+: s := by
  simp only [stringsContains, List.any_eq_true, List.mem_tails, List.isPrefixOf_iff_prefix]
  rw [List.infix_iff_prefix_suffix]
  constructor
  · rintro ⟨t, h1, h2⟩
    exact ⟨t, h2, h1⟩
  · rintro ⟨t, h1, h2⟩
    exact ⟨t, h2, h1⟩

theorem stringsContains_singleton (s : Line) (c : Char) :
    stringsContains s [c] = true ↔ c ∈ s := by
  rw [stringsContains_iff]
  constructor
  · intro h
    exact h.subset (List.mem_singleton_self c)
  · intro h
    obtain ⟨a, b, rfl⟩ := List.append_of_mem h
    exact ⟨a, b, by simp⟩

theorem matchString_iff (r : Regex) (s : Line) :
    r.MatchString s = true ↔ ∃ i, i ≤ s.length ∧ r.ends s i ≠ [] := by
  simp only [Regex.MatchString, List.any_eq_true, List.mem_range, Bool.not_eq_true',
    List.isEmpty_eq_false, Nat.lt_succ_iff]

theorem matchString_eq_false_of_ends (r : Regex) (s : Line) (h : ∀ i, r.ends s i = []) :
    r.MatchString s = false := by
  rw [← Bool.not_eq_true, matchString_iff]
  rintro ⟨i, _, hi⟩
  exact hi (h i)

/-- A class matches a line exactly when one of its listed runes is in the line. -/
theorem matchString_cls (cs : List Char) (s : Line) :
    (Regex.cls cs).MatchString s = true ↔ ∃ c, c ∈ s ∧ c ∈ cs := by
  rw [matchString_iff]
  constructor
  · rintro ⟨i, _, hi⟩
    simp only [Regex.ends] at hi
    cases hc : s[i]? with
    | none => simp [hc] at hi
    | some c =>
      simp only [hc] at hi
      by_cases hm : c ∈ cs
      · exact ⟨c, List.getElem?_mem hc, hm⟩
      · simp [hm] at hi
  · rintro ⟨c, hs, hm⟩
    obtain ⟨i, hi, rfl⟩ := List.getElem_of_mem hs
    refine ⟨i, Nat.le_of_lt hi, ?_⟩
    simp [Regex.ends, List.getElem?_eq_getElem hi, hm]

/-- The pattern of the `smart_quotes` entry matches exactly the lines that
contain a straight double quote. -/
theorem smartQuotes_match_iff (line : Line) :
    smartQuotesMark.Pattern.MatchString line = true ↔ '"' ∈ line := by
  show (Regex.cls ['"', '"']).MatchString line = true ↔ _
  rw [matchString_cls]
  constructor
  · rintro ⟨c, hs, hm⟩
    simp only [List.mem_cons, or_self, List.mem_singleton, List.not_mem_nil, or_false] at hm
    exact hm ▸ hs
  · intro h
    exact ⟨'"', h, by simp⟩

/-- The pattern of the `smart_single_quotes` entry matches exactly the lines
that contain a straight single quote. -/
theorem smartSingleQuotes_match_iff (line : Line) :
    smartSingleQuotesMark.Pattern.MatchString line = true ↔ '\'' ∈ line := by
  show (Regex.cls ['\'', '\'']).MatchString line = true ↔ _
  rw [matchString_cls]
  constructor
  · rintro ⟨c, hs, hm⟩
    simp only [List.mem_cons, or_self, List.mem_singleton, List.not_mem_nil, or_false] at hm
    exact hm ▸ hs
  · intro h
    exact ⟨'\'', h, by simp⟩

/-! ## Lemmas on the scan -/

theorem scanLoop_eq (U : UnicodeTables) (config : Config) (lines : List Line) :
    ∀ (lineNum : Int) (issues : List Issue),
      scanLoop U config lineNum issues lines = issues ++ scanFrom U config lineNum lines := by
  induction lines with
  | nil => intro lineNum issues; simp [scanLoop, scanFrom]
  | cons line rest ih =>
    intro lineNum issues
    simp [scanLoop, scanFrom, ih]

theorem line_of_mem_markIssues (U : UnicodeTables) (config : Config) (lineNum : Int)
    (line : Line) (issue : Issue) (h : issue ∈ markIssues U config lineNum line) :
    issue.Line = lineNum ∧ issue.Severity = "warning"
      ∧ ∃ qm, qm ∈ config.QuotationMarks ∧ issue.Typ = qm.Typ := by
  simp only [markIssues, List.mem_flatMap] at h
  obtain ⟨qm, hqm, hi⟩ := h
  unfold markIssue at hi
  split at hi
  · split at hi
    · simp only [List.mem_singleton] at hi
      subst hi
      exact ⟨rfl, rfl, qm, hqm, rfl⟩
    · simp at hi
  · simp at hi

theorem line_of_mem_scanLine (U : UnicodeTables) (config : Config) (lineNum : Int)
    (line : Line) (issue : Issue) (h : issue ∈ scanLine U config lineNum line) :
    issue.Line = lineNum := by
  simp only [scanLine, List.mem_append] at h
  rcases h with (h | h) | h
  · unfold lengthIssues at h
    split at h
    · simp only [List.mem_singleton] at h
      subst h
      rfl
    · simp at h
  · exact (line_of_mem_markIssues U config lineNum line issue h).1
  · unfold balanceIssues at h
    split at h
    · simp only [List.mem_singleton] at h
      subst h
      rfl
    · simp at h

theorem line_of_mem_scanFrom (U : UnicodeTables) (config : Config) (lines : List Line) :
    ∀ (lineNum : Int) (issue : Issue), issue ∈ scanFrom U config lineNum lines →
      lineNum < issue.Line := by
  induction lines with
  | nil => intro lineNum issue h; simp [scanFrom] at h
  | cons line rest ih =>
    intro lineNum issue h
    simp only [scanFrom, List.mem_append] at h
    rcases h with h | h
    · have := line_of_mem_scanLine U config _ line issue h
      omega
    · have := ih _ issue h
      omega

/-- The issues of a scan that carry the number of the line at index `i` are the
issues of that line. -/
theorem filter_line_scanFrom (U : UnicodeTables) (config : Config) (lines : List Line) :
    ∀ (lineNum : Int) (i : Nat) (line : Line), lines[i]? = some line →
      (scanFrom U config lineNum lines).filter (fun issue => decide (issue.Line = lineNum + i + 1))
        = scanLine U config (lineNum + i + 1) line := by
  induction lines with
  | nil => intro lineNum i line h; simp at h
  | cons l rest ih =>
    intro lineNum i line h
    rw [scanFrom, List.filter_append]
    cases i with
    | zero =>
      simp only [List.getElem?_cons_zero, Option.some.injEq] at h
      subst h
      have h1 : (scanLine U config (lineNum + 1) l).filter
          (fun issue => decide (issue.Line = lineNum + ((0 : Nat) : Int) + 1))
          = scanLine U config (lineNum + 1) l := by
        rw [List.filter_eq_self]
        intro issue hi
        have := line_of_mem_scanLine U config _ l issue hi
        simp [this]
      have h2 : (scanFrom U config (lineNum + 1) rest).filter
          (fun issue => decide (issue.Line = lineNum + ((0 : Nat) : Int) + 1)) = [] := by
        rw [List.filter_eq_nil_iff]
        intro issue hi
        have := line_of_mem_scanFrom U config rest _ issue hi
        simp only [decide_eq_true_eq]
        omega
      rw [h1, h2]
      simp
    | succ j =>
      simp only [List.getElem?_cons_succ] at h
      have h1 : (scanLine U config (lineNum + 1) l).filter
          (fun issue => decide (issue.Line = lineNum + ((j + 1 : Nat) : Int) + 1)) = [] := by
        rw [List.filter_eq_nil_iff]
        intro issue hi
        have := line_of_mem_scanLine U config _ l issue hi
        simp only [decide_eq_true_eq]
        omega
      have h2 := ih (lineNum + 1) j line h
      have e : lineNum + 1 + (j : Int) + 1 = lineNum + ((j + 1 : Nat) : Int) + 1 := by
        push_cast
        omega
      rw [e] at h2
      rw [h1, h2]
      simp

/-- The issues of `scanFile` on a file that could be opened. -/
theorem scanFile_issues (U : UnicodeTables) (config : Config) (path : String)
    (lines : List Line) (scanErr : Option String) :
    (scanFile U path (.content lines scanErr) config).Issues
      = scanFrom U config 0 lines ++
          (match scanErr with
           | some err => [ { Line := 0, Column := 0, Typ := "scan_error"
                             Message := "Error scanning file: " ++ err
                             Context := []
                             Severity := "error" } ]
           | none => []) := by
  cases scanErr <;> simp [scanFile, scanLoop_eq]

/-- The issues of `scanFile` that carry the number of the line at index `i`. -/
theorem scanFile_issues_of_line (U : UnicodeTables) (config : Config) (path : String)
    (lines : List Line) (scanErr : Option String) (i : Nat) (line : Line)
    (h : lines[i]? = some line) :
    (scanFile U path (.content lines scanErr) config).Issues.filter
        (fun issue => decide (issue.Line = (i : Int) + 1))
      = scanLine U config ((i : Int) + 1) line := by
  rw [scanFile_issues, List.filter_append]
  have h1 := filter_line_scanFrom U config lines 0 i line h
  simp only [Int.zero_add] at h1
  rw [h1]
  cases scanErr with
  | none => simp
  | some err =>
    have : ¬ ((0 : Int) = (i : Int) + 1) := by omega
    simp [List.filter_cons, this]

theorem issuesAt_eq (issues : List Issue) (kind : String) (lineNum : Int) :
    issuesAt issues kind lineNum
      = (issues.filter (fun issue => decide (issue.Line = lineNum))).filter
          (fun issue => decide (issue.Typ = kind)) := by
  simp only [issuesAt, List.filter_filter]
  congr 1
  funext issue
  simp [Bool.decide_and]

theorem markIssues_default (U : UnicodeTables) (config : Config)
    (hq : config.QuotationMarks = initializeQuotationMarks) (lineNum : Int) (line : Line) :
    markIssues U config lineNum line
      = markIssue U lineNum line smartQuotesMark ++ (markIssue U lineNum line smartSingleQuotesMark
          ++ (markIssue U lineNum line backticksInStringsMark
          ++ (markIssue U lineNum line mixedQuotesMark
          ++ markIssue U lineNum line unmatchedQuotesMark))) := by
  simp [markIssues, hq, initializeQuotationMarks]

/-- With the default registry, an issue of a detector has one of the five kinds
of the registry. -/
theorem typ_of_mem_markIssues (U : UnicodeTables) (config : Config)
    (hq : config.QuotationMarks = initializeQuotationMarks) (lineNum : Int) (line : Line)
    (issue : Issue) (h : issue ∈ markIssues U config lineNum line) :
    issue.Typ = "smart_quotes" ∨ issue.Typ = "smart_single_quotes"
      ∨ issue.Typ = "backticks_in_strings" ∨ issue.Typ = "mixed_quotes"
      ∨ issue.Typ = "unmatched_quotes" := by
  obtain ⟨_, _, qm, hqm, ht⟩ := line_of_mem_markIssues U config lineNum line issue h
  rw [hq] at hqm
  simp only [initializeQuotationMarks, List.mem_cons, List.mem_singleton, List.not_mem_nil,
    or_false] at hqm
  rcases hqm with rfl | rfl | rfl | rfl | rfl
  · exact Or.inl ht
  · exact Or.inr (Or.inl ht)
  · exact Or.inr (Or.inr (Or.inl ht))
  · exact Or.inr (Or.inr (Or.inr (Or.inl ht)))
  · exact Or.inr (Or.inr (Or.inr (Or.inr ht)))

theorem markIssue_of_no_match (U : UnicodeTables) (lineNum : Int) (line : Line)
    (qm : QuotationMark) (h : qm.Pattern.MatchString line = false) :
    markIssue U lineNum line qm = [] := by
  simp [markIssue, h]

theorem getElem?_ne_of_not_mem (s : Line) (c : Char) (h : c ∉ s) (i : Nat) :
    ¬ s[i]? = some c :=
  fun e => h (List.getElem?_mem e)

theorem backticksInStrings_no_match (line : Line) (h : '"' ∉ line) :
    backticksInStringsMark.Pattern.MatchString line = false := by
  apply matchString_eq_false_of_ends
  intro i
  simp [backticksInStringsMark, Regex.ends, getElem?_ne_of_not_mem line '"' h]

theorem mixedQuotes_no_match (line : Line) (h1 : '"' ∉ line) (h2 : '\'' ∉ line) :
    mixedQuotesMark.Pattern.MatchString line = false := by
  apply matchString_eq_false_of_ends
  intro i
  simp [mixedQuotesMark, Regex.ends, getElem?_ne_of_not_mem line '"' h1,
    getElem?_ne_of_not_mem line '\'' h2]

theorem unmatchedQuotes_no_match (line : Line) (h1 : '"' ∉ line) (h2 : '\'' ∉ line) :
    unmatchedQuotesMark.Pattern.MatchString line = false := by
  apply matchString_eq_false_of_ends
  intro i
  simp [unmatchedQuotesMark, Regex.ends, getElem?_ne_of_not_mem line '"' h1,
    getElem?_ne_of_not_mem line '\'' h2]

/-- A line within the length limit, without any double or single quote and with
its backticks in even number, gives no issue. -/
theorem scanLine_quote_free (U : UnicodeTables) (config : Config)
    (hq : config.QuotationMarks = initializeQuotationMarks) (lineNum : Int) (line : Line)
    (hlen : goLen line ≤ config.MaxLineLength)
    (hd : ∀ r, r ∈ line → isDoubleFamily r = false)
    (hs : ∀ r, r ∈ line → isSingleFamily r = false)
    (hb : line.countP isBacktick % 2 = 0) :
    scanLine U config lineNum line = [] := by
  have h1 : '"' ∉ line := fun h => by simpa [isDoubleFamily] using hd _ h
  have h2 : '\'' ∉ line := fun h => by simpa [isSingleFamily] using hs _ h
  have hbal : hasBalancedQuotes line = true := by
    rw [hasBalancedQuotes_iff]
    refine ⟨?_, ?_, hb⟩
    · have : line.countP isDoubleFamily = 0 := by
        rw [List.countP_eq_zero]
        intro r hr
        simp [hd r hr]
      simp [this]
    · have : line.countP isSingleFamily = 0 := by
        rw [List.countP_eq_zero]
        intro r hr
        simp [hs r hr]
      simp [this]
  have m1 : smartQuotesMark.Pattern.MatchString line = false := by
    rw [← Bool.not_eq_true, smartQuotes_match_iff]
    exact h1
  have m2 : smartSingleQuotesMark.Pattern.MatchString line = false := by
    rw [← Bool.not_eq_true, smartSingleQuotes_match_iff]
    exact h2
  rw [scanLine, markIssues_default U config hq,
    markIssue_of_no_match U lineNum line _ m1, markIssue_of_no_match U lineNum line _ m2,
    markIssue_of_no_match U lineNum line _ (backticksInStrings_no_match line h1),
    markIssue_of_no_match U lineNum line _ (mixedQuotes_no_match line h1 h2),
    markIssue_of_no_match U lineNum line _ (unmatchedQuotes_no_match line h1 h2)]
  have hl : ¬ goLen line > config.MaxLineLength := by omega
  simp [lengthIssues, balanceIssues, hl, hbal]

theorem scanFrom_eq_nil (U : UnicodeTables) (config : Config) (lines : List Line)
    (h : ∀ lineNum line, line ∈ lines → scanLine U config lineNum line = []) :
    ∀ lineNum, scanFrom U config lineNum lines = [] := by
  induction lines with
  | nil => intro lineNum; rfl
  | cons l rest ih =>
    intro lineNum
    rw [scanFrom, h _ l (List.mem_cons_self l rest),
      ih (fun n x hx => h n x (List.mem_cons_of_mem l hx))]
    rfl

/-- When no file has an issue, `main` ends with exit code 0. -/
theorem mainExitCode_of_no_issue (U : UnicodeTables) (config : Config)
    (files : List (String × FileRead))
    (h : ∀ f, f ∈ files → (scanFile U f.1 f.2 config).Issues = []) :
    mainExitCode U config files = 0 := by
  have key : ∀ (fs : List (String × FileRead)) (st : MainState),
      (∀ f, f ∈ fs → (scanFile U f.1 f.2 config).Issues = []) →
      fs.foldl (mainStep U config) st = st := by
    intro fs
    induction fs with
    | nil => intro st _; rfl
    | cons f fs ih =>
      intro st hf
      rw [List.foldl_cons]
      have e : mainStep U config st f = st := by
        simp [mainStep, hf f (List.mem_cons_self f fs)]
      rw [e]
      exact ih st (fun g hg => hf g (List.mem_cons_of_mem f hg))
  simp [mainExitCode, key files _ h]

/-! ## Lemmas on the exit code -/

theorem foldl_hasErrors (issues : List Issue) (b : Bool) :
    issues.foldl (fun hasErrors issue => if issue.Severity = "error" then true else hasErrors) b
      = (b || issues.any (fun issue => decide (issue.Severity = "error"))) := by
  induction issues generalizing b with
  | nil => simp
  | cons x xs ih =>
    rw [List.foldl_cons, ih]
    by_cases h : x.Severity = "error" <;> simp [h]

/-- The counters of `main` after the loop over the files. -/
theorem foldl_mainStep (U : UnicodeTables) (config : Config)
    (files : List (String × FileRead)) :
    ∀ st : MainState,
      (files.foldl (mainStep U config) st).totalIssues
          = st.totalIssues + ((allIssues U config files).length : Int)
        ∧ (files.foldl (mainStep U config) st).hasErrors
          = (st.hasErrors
              || (allIssues U config files).any (fun issue => decide (issue.Severity = "error"))) := by
  induction files with
  | nil => intro st; simp [allIssues]
  | cons f fs ih =>
    intro st
    rw [List.foldl_cons]
    obtain ⟨h1, h2⟩ := ih (mainStep U config st f)
    rw [h1, h2]
    have hall : allIssues U config (f :: fs)
        = (scanFile U f.1 f.2 config).Issues ++ allIssues U config fs := by
      simp [allIssues]
    rw [hall]
    by_cases hne : (scanFile U f.1 f.2 config).Issues.length > 0
    · simp only [mainStep, hne, if_true, foldl_hasErrors, List.length_append, List.any_append,
        Nat.cast_add, Bool.or_assoc]
      exact ⟨by omega, trivial⟩
    · have hnil : (scanFile U f.1 f.2 config).Issues = [] := by
        cases hI : (scanFile U f.1 f.2 config).Issues with
        | nil => rfl
        | cons a b => simp [hI] at hne
      simp [mainStep, hnil]

/-! ## Lemmas on the order and the independence of the lines -/

theorem scanFrom_append (U : UnicodeTables) (config : Config) (xs ys : List Line) :
    ∀ lineNum : Int, scanFrom U config lineNum (xs ++ ys)
      = scanFrom U config lineNum xs ++ scanFrom U config (lineNum + xs.length) ys := by
  induction xs with
  | nil => intro lineNum; simp [scanFrom]
  | cons x xs ih =>
    intro lineNum
    have e : lineNum + 1 + (xs.length : Int) = lineNum + ((xs.length + 1 : Nat) : Int) := by
      push_cast
      omega
    rw [List.cons_append, scanFrom, scanFrom, ih (lineNum + 1), e, List.length_cons,
      List.append_assoc]

theorem markIssue_shift (U : UnicodeTables) (lineNum k : Int) (line : Line)
    (qm : QuotationMark) :
    markIssue U (lineNum + k) line qm = (markIssue U lineNum line qm).map (shiftLine k) := by
  unfold markIssue
  split
  · split <;> simp [shiftLine]
  · simp

theorem scanLine_shift (U : UnicodeTables) (config : Config) (lineNum k : Int) (line : Line) :
    scanLine U config (lineNum + k) line
      = (scanLine U config lineNum line).map (shiftLine k) := by
  have h1 : lengthIssues config (lineNum + k) line
      = (lengthIssues config lineNum line).map (shiftLine k) := by
    unfold lengthIssues
    split <;> simp [shiftLine]
  have h2 : markIssues U config (lineNum + k) line
      = (markIssues U config lineNum line).map (shiftLine k) := by
    unfold markIssues
    induction config.QuotationMarks with
    | nil => simp
    | cons qm qms ih => simp [List.flatMap_cons, ih, markIssue_shift]
  have h3 : balanceIssues (lineNum + k) line
      = (balanceIssues lineNum line).map (shiftLine k) := by
    unfold balanceIssues
    split <;> simp [shiftLine]
  simp [scanLine, h1, h2, h3]

theorem scanFrom_shift (U : UnicodeTables) (config : Config) (k : Int) (lines : List Line) :
    ∀ lineNum : Int, scanFrom U config (lineNum + k) lines
      = (scanFrom U config lineNum lines).map (shiftLine k) := by
  induction lines with
  | nil => intro lineNum; simp [scanFrom]
  | cons l rest ih =>
    intro lineNum
    have e : lineNum + k + 1 = lineNum + 1 + k := by omega
    simp only [scanFrom, List.map_append, e, ih, scanLine_shift]

theorem mem_scanFrom (U : UnicodeTables) (config : Config) (lines : List Line) :
    ∀ (lineNum : Int) (issue : Issue), issue ∈ scanFrom U config lineNum lines →
      ∃ n line, line ∈ lines ∧ issue ∈ scanLine U config n line := by
  induction lines with
  | nil => intro lineNum issue h; simp [scanFrom] at h
  | cons l rest ih =>
    intro lineNum issue h
    simp only [scanFrom, List.mem_append] at h
    rcases h with h | h
    · exact ⟨_, l, List.mem_cons_self l rest, h⟩
    · obtain ⟨n, line, hl, hi⟩ := ih _ issue h
      exact ⟨n, line, List.mem_cons_of_mem l hl, hi⟩

theorem mem_lengthIssues (config : Config) (lineNum : Int) (line : Line) (issue : Issue)
    (h : issue ∈ lengthIssues config lineNum line) :
    issue.Line = lineNum ∧ issue.Typ = "line_length" ∧ issue.Severity = "warning" := by
  unfold lengthIssues at h
  split at h
  · simp only [List.mem_singleton] at h
    subst h
    exact ⟨rfl, rfl, rfl⟩
  · simp at h

theorem mem_balanceIssues (lineNum : Int) (line : Line) (issue : Issue)
    (h : issue ∈ balanceIssues lineNum line) :
    issue.Line = lineNum ∧ issue.Typ = "unbalanced_quotes" ∧ issue.Severity = "error" := by
  unfold balanceIssues at h
  split at h
  · simp only [List.mem_singleton] at h
    subst h
    exact ⟨rfl, rfl, rfl⟩
  · simp at h

theorem mem_markIssue (U : UnicodeTables) (lineNum : Int) (line : Line) (qm : QuotationMark)
    (issue : Issue) (h : issue ∈ markIssue U lineNum line qm) :
    issue.Line = lineNum ∧ issue.Typ = qm.Typ ∧ issue.Severity = "warning" := by
  unfold markIssue at h
  split at h
  · split at h
    · simp only [List.mem_singleton] at h
      subst h
      exact ⟨rfl, rfl, rfl⟩
    · simp at h
  · simp at h

theorem length_markIssue_le (U : UnicodeTables) (lineNum : Int) (line : Line)
    (qm : QuotationMark) : (markIssue U lineNum line qm).length ≤ 1 := by
  unfold markIssue
  split
  · split <;> simp
  · simp

/-- A list of issues of the line `n`, strictly ordered by the rank of their
kinds, all of rank at least `lo` and below `hi`. -/
theorem pairwise_append_of_rank (n : Int) (mid : Nat) (l1 l2 : List Issue)
    (p1 : l1.Pairwise issueBefore) (p2 : l2.Pairwise issueBefore)
    (h1 : ∀ x, x ∈ l1 → x.Line = n ∧ kindRank x.Typ < mid)
    (h2 : ∀ x, x ∈ l2 → x.Line = n ∧ mid ≤ kindRank x.Typ) :
    (l1 ++ l2).Pairwise issueBefore := by
  rw [List.pairwise_append]
  refine ⟨p1, p2, ?_⟩
  intro a ha b hb
  right
  have := h1 a ha
  have := h2 b hb
  exact ⟨by omega, by omega⟩

theorem pairwise_of_length_le_one (l : List Issue) (h : l.length ≤ 1) :
    l.Pairwise issueBefore := by
  match l, h with
  | [], _ => exact List.Pairwise.nil
  | [x], _ => simp

/-- With the default registry, the issues of one line are strictly ordered by
the rank of their kinds, and every kind has a rank below 7. -/
theorem scanLine_ordered (U : UnicodeTables) (config : Config)
    (hq : config.QuotationMarks = initializeQuotationMarks) (lineNum : Int) (line : Line) :
    (scanLine U config lineNum line).Pairwise issueBefore
      ∧ ∀ x, x ∈ scanLine U config lineNum line → x.Line = lineNum ∧ kindRank x.Typ < 7 := by
  have hL : (lengthIssues config lineNum line).length ≤ 1 := by
    unfold lengthIssues
    split <;> simp
  have hB : (balanceIssues lineNum line).length ≤ 1 := by
    unfold balanceIssues
    split <;> simp
  have rL : ∀ x, x ∈ lengthIssues config lineNum line → x.Line = lineNum ∧ kindRank x.Typ = 0 := by
    intro x hx
    obtain ⟨a, b, _⟩ := mem_lengthIssues config lineNum line x hx
    exact ⟨a, by rw [b]; decide⟩
  have rB : ∀ x, x ∈ balanceIssues lineNum line → x.Line = lineNum ∧ kindRank x.Typ = 6 := by
    intro x hx
    obtain ⟨a, b, _⟩ := mem_balanceIssues lineNum line x hx
    exact ⟨a, by rw [b]; decide⟩
  have rM : ∀ (qm : QuotationMark) (k : Nat), kindRank qm.Typ = k →
      ∀ x, x ∈ markIssue U lineNum line qm → x.Line = lineNum ∧ kindRank x.Typ = k := by
    intro qm k hk x hx
    obtain ⟨a, b, _⟩ := mem_markIssue U lineNum line qm x hx
    exact ⟨a, by rw [b]; exact hk⟩
  have r1 := rM smartQuotesMark 1 (by decide)
  have r2 := rM smartSingleQuotesMark 2 (by decide)
  have r3 := rM backticksInStringsMark 3 (by decide)
  have r4 := rM mixedQuotesMark 4 (by decide)
  have r5 := rM unmatchedQuotesMark 5 (by decide)
  have p5 := pairwise_of_length_le_one _ (length_markIssue_le U lineNum line unmatchedQuotesMark)
  have p45 := pairwise_append_of_rank lineNum 5 _ _
    (pairwise_of_length_le_one _ (length_markIssue_le U lineNum line mixedQuotesMark)) p5
    (fun x hx => ⟨(r4 x hx).1, by have := (r4 x hx).2; omega⟩)
    (fun x hx => ⟨(r5 x hx).1, by have := (r5 x hx).2; omega⟩)
  have m45 : ∀ x, x ∈ markIssue U lineNum line mixedQuotesMark
      ++ markIssue U lineNum line unmatchedQuotesMark →
      x.Line = lineNum ∧ 4 ≤ kindRank x.Typ ∧ kindRank x.Typ < 6 := by
    intro x hx
    rcases List.mem_append.1 hx with h | h
    · exact ⟨(r4 x h).1, by have := (r4 x h).2; omega, by have := (r4 x h).2; omega⟩
    · exact ⟨(r5 x h).1, by have := (r5 x h).2; omega, by have := (r5 x h).2; omega⟩
  have p345 := pairwise_append_of_rank lineNum 4 _ _
    (pairwise_of_length_le_one _ (length_markIssue_le U lineNum line backticksInStringsMark)) p45
    (fun x hx => ⟨(r3 x hx).1, by have := (r3 x hx).2; omega⟩)
    (fun x hx => ⟨(m45 x hx).1, (m45 x hx).2.1⟩)
  have m345 : ∀ x, x ∈ markIssue U lineNum line backticksInStringsMark
      ++ (markIssue U lineNum line mixedQuotesMark
        ++ markIssue U lineNum line unmatchedQuotesMark) →
      x.Line = lineNum ∧ 3 ≤ kindRank x.Typ ∧ kindRank x.Typ < 6 := by
    intro x hx
    rcases List.mem_append.1 hx with h | h
    · exact ⟨(r3 x h).1, by have := (r3 x h).2; omega, by have := (r3 x h).2; omega⟩
    · exact ⟨(m45 x h).1, by have := (m45 x h).2.1; omega, (m45 x h).2.2⟩
  have p2345 := pairwise_append_of_rank lineNum 3 _ _
    (pairwise_of_length_le_one _ (length_markIssue_le U lineNum line smartSingleQuotesMark)) p345
    (fun x hx => ⟨(r2 x hx).1, by have := (r2 x hx).2; omega⟩)
    (fun x hx => ⟨(m345 x hx).1, (m345 x hx).2.1⟩)
  have m2345 : ∀ x, x ∈ markIssue U lineNum line smartSingleQuotesMark
      ++ (markIssue U lineNum line backticksInStringsMark
        ++ (markIssue U lineNum line mixedQuotesMark
          ++ markIssue U lineNum line unmatchedQuotesMark)) →
      x.Line = lineNum ∧ 2 ≤ kindRank x.Typ ∧ kindRank x.Typ < 6 := by
    intro x hx
    rcases List.mem_append.1 hx with h | h
    · exact ⟨(r2 x h).1, by have := (r2 x h).2; omega, by have := (r2 x h).2; omega⟩
    · exact ⟨(m345 x h).1, by have := (m345 x h).2.1; omega, (m345 x h).2.2⟩
  have pM := pairwise_append_of_rank lineNum 2 _ _
    (pairwise_of_length_le_one _ (length_markIssue_le U lineNum line smartQuotesMark)) p2345
    (fun x hx => ⟨(r1 x hx).1, by have := (r1 x hx).2; omega⟩)
    (fun x hx => ⟨(m2345 x hx).1, (m2345 x hx).2.1⟩)
  have mM : ∀ x, x ∈ markIssues U config lineNum line →
      x.Line = lineNum ∧ 1 ≤ kindRank x.Typ ∧ kindRank x.Typ < 6 := by
    intro x hx
    rw [markIssues_default U config hq] at hx
    rcases List.mem_append.1 hx with h | h
    · exact ⟨(r1 x h).1, by have := (r1 x h).2; omega, by have := (r1 x h).2; omega⟩
    · exact ⟨(m2345 x h).1, by have := (m2345 x h).2.1; omega, (m2345 x h).2.2⟩
  rw [← markIssues_default U config hq] at pM
  have pLM := pairwise_append_of_rank lineNum 1 _ _
    (pairwise_of_length_le_one _ hL) pM
    (fun x hx => ⟨(rL x hx).1, by have := (rL x hx).2; omega⟩)
    (fun x hx => ⟨(mM x hx).1, (mM x hx).2.1⟩)
  have mLM : ∀ x, x ∈ lengthIssues config lineNum line ++ markIssues U config lineNum line →
      x.Line = lineNum ∧ kindRank x.Typ < 6 := by
    intro x hx
    rcases List.mem_append.1 hx with h | h
    · exact ⟨(rL x h).1, by have := (rL x h).2; omega⟩
    · exact ⟨(mM x h).1, (mM x h).2.2⟩
  have pAll := pairwise_append_of_rank lineNum 6 _ _ pLM (pairwise_of_length_le_one _ hB) mLM
    (fun x hx => ⟨(rB x hx).1, by have := (rB x hx).2; omega⟩)
  refine ⟨pAll, ?_⟩
  intro x hx
  rcases List.mem_append.1 hx with h | h
  · exact ⟨(mLM x h).1, by have := (mLM x h).2; omega⟩
  · exact ⟨(rB x h).1, by have := (rB x h).2; omega⟩

theorem scanFrom_pairwise_line (U : UnicodeTables) (config : Config) (lines : List Line) :
    ∀ lineNum : Int,
      (scanFrom U config lineNum lines).Pairwise (fun a b => a.Line ≤ b.Line) := by
  induction lines with
  | nil => intro lineNum; simp [scanFrom]
  | cons l rest ih =>
    intro lineNum
    rw [scanFrom, List.pairwise_append]
    refine ⟨?_, ih _, ?_⟩
    · apply List.pairwise_of_forall_mem_list
      intro a ha b hb
      rw [line_of_mem_scanLine U config _ l a ha, line_of_mem_scanLine U config _ l b hb]
    · intro a ha b hb
      have h1 := line_of_mem_scanLine U config _ l a ha
      have h2 := line_of_mem_scanFrom U config rest _ b hb
      omega

theorem scanFrom_pairwise_before (U : UnicodeTables) (config : Config)
    (hq : config.QuotationMarks = initializeQuotationMarks) (lines : List Line) :
    ∀ lineNum : Int, (scanFrom U config lineNum lines).Pairwise issueBefore := by
  induction lines with
  | nil => intro lineNum; simp [scanFrom]
  | cons l rest ih =>
    intro lineNum
    rw [scanFrom, List.pairwise_append]
    refine ⟨(scanLine_ordered U config hq _ l).1, ih _, ?_⟩
    intro a ha b hb
    have h1 := line_of_mem_scanLine U config _ l a ha
    have h2 := line_of_mem_scanFrom U config rest _ b hb
    left
    omega

/-! ## Lemmas on the end positions of the patterns -/

theorem mem_ends_lit (s : Line) (c : Char) (i j : Nat) :
    j ∈ (Regex.lit c).ends s i ↔ s[i]? = some c ∧ j = i + 1 := by
  by_cases h : s[i]? = some c <;> simp [Regex.ends, h]

theorem mem_ends_bol (s : Line) (i j : Nat) :
    j ∈ Regex.bol.ends s i ↔ i = 0 ∧ j = i := by
  by_cases h : i = 0 <;> simp [Regex.ends, h]

theorem mem_ends_eol (s : Line) (i j : Nat) :
    j ∈ Regex.eol.ends s i ↔ i = s.length ∧ j = i := by
  by_cases h : i = s.length <;> simp [Regex.ends, h]

theorem mem_ends_cat (s : Line) (r t : Regex) (i j : Nat) :
    j ∈ (Regex.cat r t).ends s i ↔ ∃ k, k ∈ r.ends s i ∧ j ∈ t.ends s k := by
  simp [Regex.ends, List.mem_flatMap]

theorem mem_ends_alt (s : Line) (r t : Regex) (i j : Nat) :
    j ∈ (Regex.alt r t).ends s i ↔ j ∈ r.ends s i ∨ j ∈ t.ends s i := by
  simp [Regex.ends]

theorem ends_ncls_single (s : Line) (c : Char) (i : Nat) :
    (Regex.ncls [c]).ends s i
      = if (∃ d, s[i]? = some d ∧ d ≠ c) then [i + 1] else [] := by
  cases h : s[i]? with
  | none => simp [Regex.ends, h]
  | some d =>
    by_cases e : d = c <;> simp [Regex.ends, h, e]

/-- The end positions of `[^c]*` started at `i`: the positions `j` from `i` on
such that no rune from `i` up to `j` is `c`. -/
theorem mem_starEnds_ncls (s : Line) (c : Char) :
    ∀ (fuel i j : Nat), j ∈ starEnds (Regex.ends s (.ncls [c])) fuel i ↔
      i ≤ j ∧ j ≤ i + fuel ∧ ∀ m, i ≤ m → m < j → ∃ d, s[m]? = some d ∧ d ≠ c := by
  intro fuel
  induction fuel with
  | zero =>
    intro i j
    simp only [starEnds, List.mem_singleton, Nat.add_zero]
    constructor
    · rintro rfl
      exact ⟨Nat.le_refl _, Nat.le_refl _, fun m h1 h2 => absurd h2 (by omega)⟩
    · rintro ⟨h1, h2, _⟩
      omega
  | succ fuel ih =>
    intro i j
    rw [starEnds, ends_ncls_single]
    by_cases h : ∃ d, s[i]? = some d ∧ d ≠ c
    · simp only [h, if_true, List.filter_cons, Nat.lt_succ_self, decide_True, List.filter_nil,
        List.flatMap_cons, List.flatMap_nil, List.append_nil, List.mem_append, ih,
        List.mem_singleton]
      constructor
      · rintro (⟨h1, h2, h3⟩ | rfl)
        · refine ⟨by omega, by omega, fun m hm1 hm2 => ?_⟩
          by_cases e : m = i
          · subst e
            exact h
          · exact h3 m (by omega) hm2
        · exact ⟨Nat.le_refl _, by omega, fun m h1 h2 => absurd h2 (by omega)⟩
      · rintro ⟨h1, h2, h3⟩
        by_cases e : j = i
        · exact Or.inr e
        · exact Or.inl ⟨by omega, by omega, fun m hm1 hm2 => h3 m (by omega) hm2⟩
    · simp only [h, if_false, List.filter_nil, List.flatMap_nil, List.nil_append,
        List.mem_singleton]
      constructor
      · rintro rfl
        exact ⟨Nat.le_refl _, by omega, fun m h1 h2 => absurd h2 (by omega)⟩
      · rintro ⟨h1, _, h3⟩
        by_cases e : j = i
        · exact e
        · exact absurd (h3 i (Nat.le_refl _) (by omega)) h

theorem mem_ends_star_ncls (s : Line) (c : Char) (i j : Nat) :
    j ∈ (Regex.star (.ncls [c])).ends s i ↔
      i ≤ j ∧ ∀ m, i ≤ m → m < j → ∃ d, s[m]? = some d ∧ d ≠ c := by
  have e : (Regex.star (.ncls [c])).ends s i
      = starEnds (Regex.ends s (.ncls [c])) s.length i := by
    simp [Regex.ends]
  rw [e, mem_starEnds_ncls]
  constructor
  · rintro ⟨h1, _, h3⟩
    exact ⟨h1, h3⟩
  · rintro ⟨h1, h3⟩
    refine ⟨h1, ?_, h3⟩
    by_cases e : j = i
    · omega
    · obtain ⟨d, hd, _⟩ := h3 (j - 1) (by omega) (by omega)
      have := (List.getElem?_eq_some_iff.1 hd).1
      omega

theorem matchString_iff_mem (r : Regex) (s : Line) :
    r.MatchString s = true ↔ ∃ i, i ≤ s.length ∧ ∃ j, j ∈ r.ends s i := by
  rw [matchString_iff]
  constructor
  · rintro ⟨i, hi, hne⟩
    obtain ⟨j, hj⟩ := List.exists_mem_of_ne_nil _ hne
    exact ⟨i, hi, j, hj⟩
  · rintro ⟨i, hi, j, hj⟩
    exact ⟨i, hi, List.ne_nil_of_mem hj⟩

theorem getElem?_other (s : Line) (a x : Char) (m j : Nat) (hj : s[j]? = some x)
    (hm : m < j) (hne : s[m]? ≠ some a) : ∃ d, s[m]? = some d ∧ d ≠ a := by
  have hlt : j < s.length := (List.getElem?_eq_some_iff.1 hj).1
  have hm' : m < s.length := by omega
  refine ⟨s[m], List.getElem?_eq_getElem hm', ?_⟩
  intro e
  exact hne (by rw [List.getElem?_eq_getElem hm', e])

/-- The end positions of a pattern `a[^a]*b[^a]*a` with `b` different from
`a`: there are an `a` at the start, a later `a`, no `a` between the two and a
`b` between the two; the match ends after the second `a`. -/
theorem mem_ends_quoted (s : Line) (a b : Char) (hab : b ≠ a) (i e : Nat) :
    e ∈ (Regex.cat (.lit a) (.cat (.star (.ncls [a])) (.cat (.lit b)
          (.cat (.star (.ncls [a])) (.lit a))))).ends s i
      ↔ ∃ k j, i < k ∧ k < j ∧ s[i]? = some a ∧ s[k]? = some b ∧ s[j]? = some a
          ∧ (∀ m, i < m → m < j → s[m]? ≠ some a) ∧ e = j + 1 := by
  simp only [mem_ends_cat, mem_ends_lit, mem_ends_star_ncls]
  constructor
  · rintro ⟨k1, ⟨hi, rfl⟩, k2, ⟨h12, hA⟩, k3, ⟨hk, rfl⟩, k4, ⟨h34, hB⟩, hj, rfl⟩
    refine ⟨k2, k4, by omega, by omega, hi, hk, hj, ?_, rfl⟩
    intro m hm1 hm2 hc
    by_cases h1 : m < k2
    · obtain ⟨d, hd, hne⟩ := hA m (by omega) h1
      rw [hd] at hc
      exact hne (Option.some.inj hc)
    · by_cases h2 : m = k2
      · subst h2
        rw [hk] at hc
        exact hab (Option.some.inj hc)
      · obtain ⟨d, hd, hne⟩ := hB m (by omega) hm2
        rw [hd] at hc
        exact hne (Option.some.inj hc)
  · rintro ⟨k, j, hik, hkj, hi, hk, hj, hno, rfl⟩
    refine ⟨i + 1, ⟨hi, rfl⟩, k, ⟨by omega, ?_⟩, k + 1, ⟨hk, rfl⟩, j, ⟨by omega, ?_⟩, hj, rfl⟩
    · intro m hm1 hm2
      exact getElem?_other s a a m j hj (by omega) (hno m (by omega) (by omega))
    · intro m hm1 hm2
      exact getElem?_other s a a m j hj hm2 (hno m (by omega) hm2)

/-- The end positions of a pattern `^[^c]*c[^c]*$`: the match starts at 0 and
ends at the end of the line, and there is exactly one position that holds `c`. -/
theorem mem_ends_anchored (s : Line) (c : Char) (i e : Nat) :
    e ∈ (Regex.cat .bol (.cat (.star (.ncls [c])) (.cat (.lit c)
          (.cat (.star (.ncls [c])) .eol)))).ends s i
      ↔ i = 0 ∧ e = s.length
          ∧ ∃ k : Nat, s[k]? = some c ∧ ∀ m : Nat, m ≠ k → s[m]? ≠ some c := by
  simp only [mem_ends_cat, mem_ends_lit, mem_ends_star_ncls, mem_ends_bol, mem_ends_eol]
  constructor
  · rintro ⟨k1, ⟨rfl, rfl⟩, k2, ⟨_, hA⟩, k3, ⟨hk, rfl⟩, k4, ⟨h34, hB⟩, rfl, rfl⟩
    refine ⟨rfl, rfl, k2, hk, ?_⟩
    intro m hm hc
    have hlt : m < s.length := (List.getElem?_eq_some_iff.1 hc).1
    by_cases h1 : m < k2
    · obtain ⟨d, hd, hne⟩ := hA m (by omega) h1
      rw [hd] at hc
      exact hne (Option.some.inj hc)
    · obtain ⟨d, hd, hne⟩ := hB m (by omega) hlt
      rw [hd] at hc
      exact hne (Option.some.inj hc)
  · rintro ⟨rfl, rfl, k, hk, hno⟩
    have hlt : k < s.length := (List.getElem?_eq_some_iff.1 hk).1
    refine ⟨0, ⟨rfl, rfl⟩, k, ⟨by omega, ?_⟩, k + 1, ⟨hk, rfl⟩, s.length, ⟨by omega, ?_⟩,
      rfl, rfl⟩
    · intro m _ hm2
      exact getElem?_other s c c m k hk hm2 (hno m (by omega))
    · intro m hm1 hm2
      refine ⟨s[m], List.getElem?_eq_getElem hm2, ?_⟩
      intro e
      exact hno m (by omega) (by rw [List.getElem?_eq_getElem hm2, e])

/-- Exactly one position of the line holds `c` exactly when `c` occurs once. -/
theorem exists_unique_position_iff_count (c : Char) (s : Line) :
    (∃ k : Nat, s[k]? = some c ∧ ∀ m : Nat, m ≠ k → s[m]? ≠ some c) ↔ s.count c = 1 := by
  induction s with
  | nil => simp
  | cons x t ih =>
    by_cases hx : x = c
    · subst hx
      rw [List.count_cons_self]
      constructor
      · rintro ⟨k, hk, hno⟩
        have hnot : x ∉ t := by
          intro hmem
          obtain ⟨n, hn⟩ := List.mem_iff_getElem?.1 hmem
          cases k with
          | zero => exact hno (n + 1) (by omega) (by simpa using hn)
          | succ k' => exact hno 0 (by omega) (by simp)
        rw [List.count_eq_zero_of_not_mem hnot]
      · intro h
        have h0 : t.count x = 0 := by omega
        have hnot : x ∉ t := List.count_eq_zero.1 h0
        refine ⟨0, by simp, ?_⟩
        intro m hm hc
        cases m with
        | zero => exact hm rfl
        | succ m' =>
          simp only [List.getElem?_cons_succ] at hc
          exact hnot (List.getElem?_mem hc)
    · rw [List.count_cons_of_ne (fun e => hx e.symm), ← ih]
      constructor
      · rintro ⟨k, hk, hno⟩
        cases k with
        | zero =>
          simp only [List.getElem?_cons_zero, Option.some.injEq] at hk
          exact absurd hk hx
        | succ k' =>
          simp only [List.getElem?_cons_succ] at hk
          refine ⟨k', hk, ?_⟩
          intro m hm hc
          exact hno (m + 1) (by omega) (by simpa using hc)
      · rintro ⟨k, hk, hno⟩
        refine ⟨k + 1, by simpa using hk, ?_⟩
        intro m hm hc
        cases m with
        | zero =>
          simp only [List.getElem?_cons_zero, Option.some.injEq] at hc
          exact hx hc
        | succ m' =>
          simp only [List.getElem?_cons_succ] at hc
          exact hno m' (by omega) hc

theorem goLen_of_one_byte_runes (s : Line) (h : ∀ c, c ∈ s → c.utf8Size = 1) :
    goLen s = (s.length : Int) := by
  have key : (utf8Bytes s).length = s.length := by
    induction s with
    | nil => rfl
    | cons x t ih =>
      have hx := h x (List.mem_cons_self x t)
      have ht := ih (fun c hc => h c (List.mem_cons_of_mem x hc))
      simp only [utf8Bytes, List.flatMap_cons, List.length_append,
        String.length_utf8EncodeChar, hx, List.length_cons] at ht ⊢
      omega
  simp [goLen, key]

/-- The two outcomes of `FindStringIndex`: no match anywhere, or the least
start position of a match together with the first end position found there. -/
theorem findStringIndex_cases (r : Regex) (s : Line) :
    (r.MatchString s = false ∧ r.FindStringIndex s = [])
      ∨ ∃ i j rest, i ≤ s.length ∧ r.ends s i = j :: rest
          ∧ (∀ k, k < i → r.ends s k = [])
          ∧ r.MatchString s = true
          ∧ r.FindStringIndex s = [goLen (s.take i), goLen (s.take j)] := by
  cases h : (List.range (s.length + 1)).find? (fun i => !(r.ends s i).isEmpty) with
  | none =>
    left
    have h0 := h
    rw [List.find?_range_eq_none] at h
    refine ⟨?_, by simp only [Regex.FindStringIndex, h0]⟩
    rw [← Bool.not_eq_true, matchString_iff]
    rintro ⟨i, hi, hne⟩
    have := h i (by omega)
    simp only [Bool.not_not, List.isEmpty_iff] at this
    exact hne this
  | some i =>
    right
    rw [List.find?_range_eq_some] at h
    obtain ⟨hp, hmem, hmin⟩ := h
    have hi : i ≤ s.length := by
      have := List.mem_range.1 hmem
      omega
    cases he : r.ends s i with
    | nil => simp [he] at hp
    | cons j rest =>
      refine ⟨i, j, rest, hi, he, ?_, ?_, ?_⟩
      · intro k hk
        have := hmin k hk
        simpa using this
      · rw [matchString_iff]
        exact ⟨i, hi, by simp [he]⟩
      · have hf : (List.range (s.length + 1)).find? (fun i => !(r.ends s i).isEmpty) = some i := by
          rw [List.find?_range_eq_some]
          exact ⟨hp, hmem, hmin⟩
        simp [Regex.FindStringIndex, hf, he]

/-! ## Lemmas relating the `unmatched_quotes` pattern and the balance checker -/

/-- A match of the `unmatched_quotes` pattern means that one of the two straight
quotes occurs exactly once. -/
theorem count_of_unmatchedQuotes_match (s : Line)
    (h : unmatchedQuotesMark.Pattern.MatchString s = true) :
    s.count '"' = 1 ∨ s.count '\'' = 1 := by
  rw [matchString_iff_mem] at h
  obtain ⟨i, _, e, he⟩ := h
  have he' : e ∈ (Regex.alt
      (.cat .bol (.cat (.star (.ncls ['"'])) (.cat (.lit '"')
        (.cat (.star (.ncls ['"'])) .eol))))
      (.cat .bol (.cat (.star (.ncls ['\''])) (.cat (.lit '\'')
        (.cat (.star (.ncls ['\''])) .eol))))).ends s i := he
  rw [mem_ends_alt, mem_ends_anchored, mem_ends_anchored,
    exists_unique_position_iff_count, exists_unique_position_iff_count] at he'
  rcases he' with ⟨_, _, h1⟩ | ⟨_, _, h1⟩
  · exact Or.inl h1
  · exact Or.inr h1

/-- Without curly double quotes, the double family of a line is its straight
double quotes. -/
theorem countP_isDoubleFamily_of_no_curly (s : Line)
    (h : ∀ r, r ∈ s → r ≠ '“' ∧ r ≠ '”') :
    s.countP isDoubleFamily = s.count '"' := by
  rw [List.count_eq_countP]
  apply List.countP_congr
  intro r hr
  obtain ⟨h1, h2⟩ := h r hr
  simp [isDoubleFamily, h1, h2]

/-- Without curly single quotes, the single family of a line is its straight
single quotes. -/
theorem countP_isSingleFamily_of_no_curly (s : Line)
    (h : ∀ r, r ∈ s → r ≠ '‘' ∧ r ≠ '’') :
    s.countP isSingleFamily = s.count '\'' := by
  rw [List.count_eq_countP]
  apply List.countP_congr
  intro r hr
  obtain ⟨h1, h2⟩ := h r hr
  simp [isSingleFamily, h1, h2]

/-- An issue of a detector is reported only when its pattern matches. -/
theorem match_of_mem_markIssue (U : UnicodeTables) (lineNum : Int) (s : Line)
    (qm : QuotationMark) (issue : Issue) (h : issue ∈ markIssue U lineNum s qm) :
    qm.Pattern.MatchString s = true := by
  unfold markIssue at h
  split at h
  · assumption
  · simp at h

/-- With the default registry, an `unmatched_quotes` issue on a line means that
the `unmatched_quotes` pattern matches the line. -/
theorem match_of_unmatched_issue (U : UnicodeTables) (config : Config)
    (hq : config.QuotationMarks = initializeQuotationMarks) (lineNum : Int) (s : Line)
    (issue : Issue) (h : issue ∈ scanLine U config lineNum s)
    (ht : issue.Typ = "unmatched_quotes") :
    unmatchedQuotesMark.Pattern.MatchString s = true := by
  simp only [scanLine, List.mem_append] at h
  rcases h with (h | h) | h
  · obtain ⟨_, e, _⟩ := mem_lengthIssues config lineNum s issue h
    rw [e] at ht
    exact absurd ht (by decide)
  · rw [markIssues_default U config hq] at h
    simp only [List.mem_append] at h
    rcases h with h | h | h | h | h
    · obtain ⟨_, e, _⟩ := mem_markIssue U lineNum s _ issue h
      rw [e] at ht
      exact absurd ht (by decide)
    · obtain ⟨_, e, _⟩ := mem_markIssue U lineNum s _ issue h
      rw [e] at ht
      exact absurd ht (by decide)
    · obtain ⟨_, e, _⟩ := mem_markIssue U lineNum s _ issue h
      rw [e] at ht
      exact absurd ht (by decide)
    · obtain ⟨_, e, _⟩ := mem_markIssue U lineNum s _ issue h
      rw [e] at ht
      exact absurd ht (by decide)
    · exact match_of_mem_markIssue U lineNum s _ issue h
  · obtain ⟨_, e, _⟩ := mem_balanceIssues lineNum s issue h
    rw [e] at ht
    exact absurd ht (by decide)

/-- On a line without curly quotes, a match of the `unmatched_quotes` pattern
makes the line unbalanced. -/
theorem unbalanced_of_unmatchedQuotes_match (s : Line)
    (hc : ∀ r, r ∈ s → r ∉ ['“', '”', '‘', '’'])
    (hm : unmatchedQuotesMark.Pattern.MatchString s = true) :
    hasBalancedQuotes s = false := by
  have hd : ∀ r, r ∈ s → r ≠ '“' ∧ r ≠ '”' := by
    intro r hr
    have := hc r hr
    simp only [List.mem_cons, List.mem_singleton, List.not_mem_nil, or_false, not_or] at this
    exact ⟨this.1, this.2.1⟩
  have hs : ∀ r, r ∈ s → r ≠ '‘' ∧ r ≠ '’' := by
    intro r hr
    have := hc r hr
    simp only [List.mem_cons, List.mem_singleton, List.not_mem_nil, or_false, not_or] at this
    exact ⟨this.2.2.1, this.2.2.2⟩
  rw [← Bool.not_eq_true, hasBalancedQuotes_iff, countP_isDoubleFamily_of_no_curly s hd,
    countP_isSingleFamily_of_no_curly s hs]
  rintro ⟨h1, h2, _⟩
  rcases count_of_unmatchedQuotes_match s hm with e | e
  · rw [e] at h1
    exact absurd h1 (by decide)
  · rw [e] at h2
    exact absurd h2 (by decide)

/-! ## Theorems -/

/-- C1: for every line, `hasBalancedQuotes` returns true if and only if the
number of double-family characters (straight, U+201C, U+201D), the number of
single-family characters (straight, U+2018, U+2019) and the number of backticks
of the line are each even. -/
theorem hasBalancedQuotes_parity (line : Line) :
    hasBalancedQuotes line = true
      ↔ Even (line.countP (fun r => decide (r = '"' ∨ r = '“' ∨ r = '”')))
        ∧ Even (line.countP (fun r => decide (r = '\'' ∨ r = '‘' ∨ r = '’')))
        ∧ Even (line.countP (fun r => decide (r = '`'))) := by
  rw [hasBalancedQuotes_iff]
  simp only [Nat.even_iff]
  rfl

/-- C2: the pattern of the `smart_quotes` detector is the class `[""]` of the
straight double quote: it does not match the line `“a”`, which contains both
curly double quotes, and it matches the line `"a"`, which contains none. -/
theorem smart_quotes_pattern_on_curly_and_straight :
    smartQuotesMark ∈ initializeQuotationMarks
      ∧ smartQuotesMark.Pattern.MatchString ['“', 'a', '”'] = false
      ∧ smartQuotesMark.Pattern.MatchString ['"', 'a', '"'] = true := by
  refine ⟨by simp [initializeQuotationMarks], by decide, by decide⟩

/-- C3: the pattern of the `smart_single_quotes` detector is the class `['']` of
the straight single quote: it does not match the line `‘a’`, which contains both
curly single quotes, and it matches the line `'a'`, which contains none. -/
theorem smart_single_quotes_pattern_on_curly_and_straight :
    smartSingleQuotesMark ∈ initializeQuotationMarks
      ∧ smartSingleQuotesMark.Pattern.MatchString ['‘', 'a', '’'] = false
      ∧ smartSingleQuotesMark.Pattern.MatchString ['\'', 'a', '\''] = true := by
  refine ⟨by simp [initializeQuotationMarks], by decide, by decide⟩

/-- C4: for every line, `isLegitimateUse` on the `smart_quotes` detector returns
true if and only if the line contains the substring `//`, the substring `/*`,
the character `#`, or a letter that is not in the Latin script, wherever these
stand in the line. -/
theorem isLegitimateUse_smart_quotes (U : UnicodeTables) (line : Line) :
    isLegitimateUse U line smartQuotesMark = true
      ↔ ['/', '/'] <:+: line ∨ ['/', '*'] <:+: line ∨ '#' ∈ line
          ∨ ∃ r, r ∈ line ∧ U.IsLetter r = true ∧ U.IsLatin r = false := by
  have hT : smartQuotesMark.Typ = "smart_quotes" := rfl
  simp only [isLegitimateUse, hT, if_true, containsInternationalText]
  rw [← stringsContains_iff, ← stringsContains_iff, ← stringsContains_singleton]
  by_cases h1 : stringsContains line ['/', '/'] = true
  · simp [h1]
  · by_cases h2 : stringsContains line ['/', '*'] = true
    · simp [h2]
    · by_cases h3 : stringsContains line ['#'] = true
      · simp [h3]
      · simp [h1, h2, h3]

/-- C5: for every line, `isLegitimateUse` on the `smart_single_quotes` detector
returns true if and only if the line contains one of the substrings `'s`, `'t`,
`'re`, written with the straight apostrophe. -/
theorem isLegitimateUse_smart_single_quotes (U : UnicodeTables) (line : Line) :
    isLegitimateUse U line smartSingleQuotesMark = true
      ↔ ['\'', 's'] <:+: line ∨ ['\'', 't'] <:+: line ∨ ['\'', 'r', 'e'] <:+: line := by
  have hT : smartSingleQuotesMark.Typ = "smart_single_quotes" := rfl
  have hN : ¬ ("smart_single_quotes" = "smart_quotes") := by decide
  simp only [isLegitimateUse, hT, hN, if_true, if_false]
  rw [← stringsContains_iff, ← stringsContains_iff, ← stringsContains_iff]
  by_cases h1 : stringsContains line ['\'', 's'] = true
  · simp [h1]
  · by_cases h2 : stringsContains line ['\'', 't'] = true
    · simp [h2]
    · by_cases h3 : stringsContains line ['\'', 'r', 'e'] = true
      · simp [h3]
      · simp [h1, h2, h3]

/-- C6: for every line and every detector whose kind is neither `smart_quotes`
nor `smart_single_quotes`, `isLegitimateUse` returns false, so that the loop of
`scanFile` appends an issue of that kind whenever the pattern of the detector
matches the line; the three remaining detectors of the registry are of this
sort. -/
theorem isLegitimateUse_other_kinds (U : UnicodeTables) (line : Line) (qm : QuotationMark)
    (h1 : qm.Typ ≠ "smart_quotes") (h2 : qm.Typ ≠ "smart_single_quotes") :
    isLegitimateUse U line qm = false
      ∧ (∀ lineNum, qm.Pattern.MatchString line = true →
          ∃ issue, markIssue U lineNum line qm = [issue] ∧ issue.Typ = qm.Typ
            ∧ issue.Line = lineNum)
      ∧ (∀ q, q ∈ [backticksInStringsMark, mixedQuotesMark, unmatchedQuotesMark] →
          q ∈ initializeQuotationMarks ∧ isLegitimateUse U line q = false) := by
  have h : isLegitimateUse U line qm = false := by
    simp [isLegitimateUse, h1, h2]
  refine ⟨h, ?_, ?_⟩
  · intro lineNum hm
    simp [markIssue, hm, h]
  · intro q hq
    simp only [List.mem_cons, List.mem_singleton, List.not_mem_nil, or_false] at hq
    rcases hq with rfl | rfl | rfl
    · exact ⟨by simp [initializeQuotationMarks], by simp [isLegitimateUse, backticksInStringsMark]⟩
    · exact ⟨by simp [initializeQuotationMarks], by simp [isLegitimateUse, mixedQuotesMark]⟩
    · exact ⟨by simp [initializeQuotationMarks], by simp [isLegitimateUse, unmatchedQuotesMark]⟩

/-- Witness of C6 at the `mixed_quotes` detector and the line `"'a'"`. -/
theorem isLegitimateUse_other_kinds_witness :
    mixedQuotesMark.Typ ≠ "smart_quotes" ∧ mixedQuotesMark.Typ ≠ "smart_single_quotes"
      ∧ mixedQuotesMark.Pattern.MatchString ['"', '\'', 'a', '\'', '"'] = true
      ∧ isLegitimateUse sampleTables ['"', '\'', 'a', '\'', '"'] mixedQuotesMark = false
      ∧ ∃ issue, markIssue sampleTables 1 ['"', '\'', 'a', '\'', '"'] mixedQuotesMark = [issue]
          ∧ issue.Typ = mixedQuotesMark.Typ ∧ issue.Line = 1 :=
  ⟨by decide, by decide, by decide,
    (isLegitimateUse_other_kinds sampleTables ['"', '\'', 'a', '\'', '"'] mixedQuotesMark
      (by decide) (by decide)).1,
    (isLegitimateUse_other_kinds sampleTables ['"', '\'', 'a', '\'', '"'] mixedQuotesMark
      (by decide) (by decide)).2.1 1 (by decide)⟩

/-- C7: the line `fmt.Println("This is correct")` of `sample_issues.go`, with
its tab of indentation, is within the length limit of 120 and holds straight
quotes only, one balanced pair of double quotes; scanning the one-line file with
the default registry nevertheless yields a `smart_quotes` warning at line 1,
column 14, and the exit code is 2 instead of 0. -/
theorem straight_quoted_line_reports_smart_quotes :
    goLen sampleFineLine ≤ 120
      ∧ (∀ r, r ∈ sampleFineLine → r ∉ ['“', '”', '‘', '’', '\'', '`'])
      ∧ sampleFineLine.count '"' = 2
      ∧ hasBalancedQuotes sampleFineLine = true
      ∧ (scanFile sampleTables "sample_issues.go" (.content [sampleFineLine] none)
            (defaultConfig 120 true)).Issues.map
            (fun issue => (issue.Line, issue.Column, issue.Typ, issue.Severity))
          = [(1, 14, "smart_quotes", "warning")]
      ∧ mainExitCode sampleTables (defaultConfig 120 true)
          [("sample_issues.go", .content [sampleFineLine] none)] = 2 := by
  refine ⟨by decide, by decide, by decide, by decide, by decide, by decide⟩

/-- Evaluation of the scan on two lines of balanced straight quotes: the lines
`""` and `#"'s'"` are within the length limit of 120 and contain only straight
quotes, each kind in even number; the scan with the default registry reports
`smart_quotes` on the first line and, on the second, where the single quotes
are nested in the double ones, `mixed_quotes`; the exit code is 2. -/
theorem balanced_straight_quotes_scan :
    (∀ line, line ∈ [['"', '"'], ['#', '"', '\'', 's', '\'', '"']] →
        goLen line ≤ 120
          ∧ (∀ r, r ∈ line → r ∉ ['“', '”', '‘', '’', '`'])
          ∧ Even (line.count '"') ∧ Even (line.count '\''))
      ∧ (scanFile sampleTables "f"
            (.content [['"', '"'], ['#', '"', '\'', 's', '\'', '"']] none)
            (defaultConfig 120 true)).Issues.map (fun issue => (issue.Line, issue.Typ))
          = [(1, "smart_quotes"), (2, "mixed_quotes")]
      ∧ mainExitCode sampleTables (defaultConfig 120 true)
          [("f", .content [['"', '"'], ['#', '"', '\'', 's', '\'', '"']] none)] = 2 := by
  refine ⟨by decide, by decide, by decide⟩

/-- Files without any quote: when every line of every scanned file has a byte
length of at most the configured maximum, contains no double or single quote
character (straight or curly) and has its backticks in even number, scanning
with the default registry yields no issue for any file, and the exit code is 0. -/
theorem scan_quote_free_files (U : UnicodeTables) (config : Config)
    (hq : config.QuotationMarks = initializeQuotationMarks)
    (files : List (String × FileRead))
    (h : ∀ f, f ∈ files → ∃ lines, f.2 = .content lines none ∧
      ∀ line, line ∈ lines →
        goLen line ≤ config.MaxLineLength
          ∧ (∀ r, r ∈ line → r ∉ ['"', '“', '”', '\'', '‘', '’'])
          ∧ Even (line.countP (fun r => decide (r = '`')))) :
    (∀ f, f ∈ files → (scanFile U f.1 f.2 config).Issues = [])
      ∧ mainExitCode U config files = 0 := by
  have h0 : ∀ f, f ∈ files → (scanFile U f.1 f.2 config).Issues = [] := by
    intro f hf
    obtain ⟨lines, hc, hl⟩ := h f hf
    rw [hc, scanFile_issues]
    simp only [List.append_nil]
    apply scanFrom_eq_nil
    intro lineNum line hline
    obtain ⟨h1, h2, h3⟩ := hl line hline
    apply scanLine_quote_free U config hq lineNum line h1
    · intro r hr
      have := h2 r hr
      simp only [List.mem_cons, List.mem_singleton, List.not_mem_nil, or_false, not_or] at this
      simp [isDoubleFamily, this.1, this.2.1, this.2.2.1]
    · intro r hr
      have := h2 r hr
      simp only [List.mem_cons, List.mem_singleton, List.not_mem_nil, or_false, not_or] at this
      simp [isSingleFamily, this.2.2.2.1, this.2.2.2.2.1, this.2.2.2.2.2]
    · exact Nat.even_iff.1 h3
  exact ⟨h0, mainExitCode_of_no_issue U config files h0⟩

/-- An instance of `scan_quote_free_files`: one file with the two lines
`x := 1` and `a = b`, the second holding a pair of backticks around `b`. -/
theorem scan_quote_free_files_witness :
    (∀ f, f ∈ [("f", FileRead.content
          [['x', ' ', ':', '=', ' ', '1'], ['a', ' ', '=', ' ', '`', 'b', '`']] none)] →
        (scanFile sampleTables f.1 f.2 (defaultConfig 120 true)).Issues = [])
      ∧ mainExitCode sampleTables (defaultConfig 120 true)
          [("f", FileRead.content
            [['x', ' ', ':', '=', ' ', '1'], ['a', ' ', '=', ' ', '`', 'b', '`']] none)] = 0 :=
  scan_quote_free_files sampleTables (defaultConfig 120 true) rfl
    [("f", FileRead.content
      [['x', ' ', ':', '=', ' ', '1'], ['a', ' ', '=', ' ', '`', 'b', '`']] none)]
    (by
      intro f hf
      simp only [List.mem_singleton] at hf
      subst hf
      refine ⟨_, rfl, ?_⟩
      decide)

/-- C8, counterexample: the line made of one straight and one curly double
quote has an odd number (one) of straight double quotes, and scanning it yields
no `unbalanced_quotes` issue: the issues are `smart_quotes` and
`unmatched_quotes`. -/
theorem odd_straight_double_quotes_counterexample :
    Odd ((['"', '“'] : Line).count '"')
      ∧ issuesAt (scanFile sampleTables "f" (.content [['"', '“']] none)
            (defaultConfig 120 true)).Issues "unbalanced_quotes" 1 = []
      ∧ (scanFile sampleTables "f" (.content [['"', '“']] none)
            (defaultConfig 120 true)).Issues.map (fun issue => (issue.Line, issue.Typ))
          = [(1, "smart_quotes"), (1, "unmatched_quotes")] := by
  refine ⟨by decide, by decide, by decide⟩

/-- C8, amended: for every file with a line in which the double quotes of the
whole family (straight, U+201C and U+201D together) occur an odd number of
times, scanning with the default registry yields exactly one `unbalanced_quotes`
issue at that line, and it has severity `error`. -/
theorem unbalanced_issue_of_odd_double_family (U : UnicodeTables) (config : Config)
    (hq : config.QuotationMarks = initializeQuotationMarks) (path : String)
    (lines : List Line) (scanErr : Option String) (i : Nat) (line : Line)
    (hi : lines[i]? = some line)
    (hodd : Odd (line.countP (fun r => decide (r = '"' ∨ r = '“' ∨ r = '”')))) :
    ∃ issue,
      issuesAt (scanFile U path (.content lines scanErr) config).Issues
          "unbalanced_quotes" ((i : Int) + 1) = [issue]
        ∧ issue.Severity = "error" := by
  have hbal : hasBalancedQuotes line = false := by
    rw [← Bool.not_eq_true, hasBalancedQuotes_iff]
    rintro ⟨h, _⟩
    have : line.countP isDoubleFamily % 2 = 1 := Nat.odd_iff.1 hodd
    omega
  rw [issuesAt_eq, scanFile_issues_of_line U config path lines scanErr i line hi, scanLine,
    List.filter_append, List.filter_append]
  have h1 : (lengthIssues config ((i : Int) + 1) line).filter
      (fun issue => decide (issue.Typ = "unbalanced_quotes")) = [] := by
    unfold lengthIssues
    split <;> simp [List.filter_cons]
  have h2 : (markIssues U config ((i : Int) + 1) line).filter
      (fun issue => decide (issue.Typ = "unbalanced_quotes")) = [] := by
    rw [List.filter_eq_nil_iff]
    intro issue hm
    have := typ_of_mem_markIssues U config hq _ line issue hm
    rcases this with e | e | e | e | e <;> simp [e]
  rw [h1, h2]
  simp [balanceIssues, hbal, List.filter_cons]

/-- Witness of C8 (amended) on the second line of a two-line file, which holds
one straight double quote. -/
theorem unbalanced_issue_of_odd_double_family_witness :
    ([['x'], ['"', 'a']] : List Line)[1]? = some ['"', 'a']
      ∧ Odd ((['"', 'a'] : Line).countP (fun r => decide (r = '"' ∨ r = '“' ∨ r = '”')))
      ∧ ∃ issue,
          issuesAt (scanFile sampleTables "f" (.content [['x'], ['"', 'a']] none)
              (defaultConfig 120 true)).Issues "unbalanced_quotes" (((1 : Nat) : Int) + 1)
            = [issue]
          ∧ issue.Severity = "error" :=
  ⟨rfl, by decide,
    unbalanced_issue_of_odd_double_family sampleTables (defaultConfig 120 true) rfl "f"
      [['x'], ['"', 'a']] none 1 ['"', 'a'] rfl (by decide)⟩

/-- C9: on the one-line file `“a”`, whose line holds one pair of curly double
quotes and no suppression trigger, scanning with the default registry yields no
`smart_quotes` issue, and no issue at all. -/
theorem curly_pair_line_yields_no_smart_quotes_issue :
    stringsContains ['“', 'a', '”'] ['/', '/'] = false
      ∧ stringsContains ['“', 'a', '”'] ['/', '*'] = false
      ∧ stringsContains ['“', 'a', '”'] ['#'] = false
      ∧ containsInternationalText sampleTables ['“', 'a', '”'] = false
      ∧ issuesAt (scanFile sampleTables "f" (.content [['“', 'a', '”']] none)
            (defaultConfig 120 true)).Issues "smart_quotes" 1 = []
      ∧ (scanFile sampleTables "f" (.content [['“', 'a', '”']] none)
            (defaultConfig 120 true)).Issues = [] := by
  refine ⟨by decide, by decide, by decide, by decide, by decide, by decide⟩

/-- C10, counterexample: with a maximum of 1, the line `é` has one character,
which does not exceed the maximum, and scanning reports a `line_length` issue
for it, because its length in bytes is 2. -/
theorem line_length_counts_bytes_counterexample :
    ((['é'] : Line).length : Int) ≤ 1
      ∧ goLen ['é'] = 2
      ∧ (scanFile sampleTables "f" (.content [['é']] none)
            (defaultConfig 1 true)).Issues.map
            (fun issue => (issue.Line, issue.Column, issue.Typ, issue.Severity))
          = [(1, 2, "line_length", "warning")] := by
  refine ⟨by decide, by decide, by decide⟩

/-- C10, amended: for every line of a file and every configured maximum,
scanning with the default registry reports a `line_length` issue for the line if
and only if the length of the line in bytes exceeds the maximum; every
`line_length` issue of the scan has severity `warning` and its column is the
maximum plus 1. -/
theorem line_length_issue_iff (U : UnicodeTables) (config : Config)
    (hq : config.QuotationMarks = initializeQuotationMarks) (path : String)
    (lines : List Line) (scanErr : Option String) (i : Nat) (line : Line)
    (hi : lines[i]? = some line) :
    ((∃ issue, issue ∈ (scanFile U path (.content lines scanErr) config).Issues
          ∧ issue.Typ = "line_length" ∧ issue.Line = (i : Int) + 1)
        ↔ goLen line > config.MaxLineLength)
      ∧ ∀ issue, issue ∈ (scanFile U path (.content lines scanErr) config).Issues →
          issue.Typ = "line_length" →
          issue.Severity = "warning" ∧ issue.Column = config.MaxLineLength + 1 := by
  constructor
  · have key : ∀ issue, (issue ∈ (scanFile U path (.content lines scanErr) config).Issues
          ∧ issue.Line = (i : Int) + 1) ↔ issue ∈ scanLine U config ((i : Int) + 1) line := by
      intro issue
      rw [← scanFile_issues_of_line U config path lines scanErr i line hi, List.mem_filter]
      simp
    constructor
    · rintro ⟨issue, hm, ht, hl⟩
      have hs := (key issue).1 ⟨hm, hl⟩
      simp only [scanLine, List.mem_append] at hs
      rcases hs with (hs | hs) | hs
      · unfold lengthIssues at hs
        split at hs
        · assumption
        · simp at hs
      · have := typ_of_mem_markIssues U config hq _ line issue hs
        rw [ht] at this
        exact absurd this (by decide)
      · unfold balanceIssues at hs
        split at hs
        · simp only [List.mem_singleton] at hs
          subst hs
          simp at ht
        · simp at hs
    · intro hlen
      have hmem : ∀ x, x ∈ lengthIssues config ((i : Int) + 1) line →
          x ∈ scanLine U config ((i : Int) + 1) line := by
        intro x hx
        simp only [scanLine, List.mem_append]
        exact Or.inl (Or.inl hx)
      simp only [lengthIssues, hlen, if_true] at hmem
      have := (key _).2 (hmem _ (List.mem_singleton_self _))
      exact ⟨_, this.1, rfl, this.2⟩
  · intro issue hm ht
    rw [scanFile_issues, List.mem_append] at hm
    rcases hm with hm | hm
    · have hgen : ∀ (ls : List Line) (n : Int), issue ∈ scanFrom U config n ls →
          issue.Severity = "warning" ∧ issue.Column = config.MaxLineLength + 1 := by
        intro ls
        induction ls with
        | nil => intro n h; simp [scanFrom] at h
        | cons l rest ih =>
          intro n h
          simp only [scanFrom, scanLine, List.mem_append] at h
          rcases h with ((hs | hs) | hs) | hs
          · unfold lengthIssues at hs
            split at hs
            · simp only [List.mem_singleton] at hs
              subst hs
              exact ⟨rfl, rfl⟩
            · simp at hs
          · have := typ_of_mem_markIssues U config hq _ l issue hs
            rw [ht] at this
            exact absurd this (by decide)
          · unfold balanceIssues at hs
            split at hs
            · simp only [List.mem_singleton] at hs
              subst hs
              simp at ht
            · simp at hs
          · exact ih _ hs
      exact hgen lines 0 hm
    · cases scanErr with
      | none => simp at hm
      | some err =>
        simp only [List.mem_singleton] at hm
        subst hm
        simp at ht

/-- Witness of C10 (amended) on the one-line file `abc` with maximum 2. -/
theorem line_length_issue_iff_witness :
    ([['a', 'b', 'c']] : List Line)[0]? = some ['a', 'b', 'c']
      ∧ ((∃ issue, issue ∈ (scanFile sampleTables "f" (.content [['a', 'b', 'c']] none)
              (defaultConfig 2 true)).Issues
            ∧ issue.Typ = "line_length" ∧ issue.Line = ((0 : Nat) : Int) + 1)
          ↔ goLen ['a', 'b', 'c'] > (defaultConfig 2 true).MaxLineLength)
      ∧ ∀ issue, issue ∈ (scanFile sampleTables "f" (.content [['a', 'b', 'c']] none)
            (defaultConfig 2 true)).Issues →
          issue.Typ = "line_length" →
          issue.Severity = "warning"
            ∧ issue.Column = (defaultConfig 2 true).MaxLineLength + 1 :=
  ⟨rfl, line_length_issue_iff sampleTables (defaultConfig 2 true) rfl "f"
    [['a', 'b', 'c']] none 0 ['a', 'b', 'c'] rfl⟩

/-- C13: the exit code of `main` is determined by the collected issues and the
exit-on-error flag: it is 1 exactly when some issue has severity `error` and
exit-on-error is enabled; it is 2 exactly when there is an issue and either no
issue has severity `error` or exit-on-error is disabled; it is 0 exactly when
there is no issue. -/
theorem mainExitCode_spec (U : UnicodeTables) (config : Config)
    (files : List (String × FileRead)) :
    (mainExitCode U config files = 1
        ↔ (∃ issue, issue ∈ allIssues U config files ∧ issue.Severity = "error")
            ∧ config.ExitOnError = true)
      ∧ (mainExitCode U config files = 2
        ↔ allIssues U config files ≠ []
            ∧ ((∀ issue, issue ∈ allIssues U config files → issue.Severity ≠ "error")
                ∨ config.ExitOnError = false))
      ∧ (mainExitCode U config files = 0 ↔ allIssues U config files = []) := by
  obtain ⟨h1, h2⟩ := foldl_mainStep U config files
    { allResults := [], totalIssues := 0, hasErrors := false }
  simp only [Int.zero_add, Bool.false_or] at h1 h2
  have hpos : ((allIssues U config files).length : Int) > 0 ↔ allIssues U config files ≠ [] := by
    cases allIssues U config files <;> simp
  have hany : (allIssues U config files).any (fun issue => decide (issue.Severity = "error")) = true
      ↔ ∃ issue, issue ∈ allIssues U config files ∧ issue.Severity = "error" := by
    simp
  unfold mainExitCode
  simp only [h1, h2]
  by_cases he : ∃ issue, issue ∈ allIssues U config files ∧ issue.Severity = "error"
  · have hne : allIssues U config files ≠ [] := by
      obtain ⟨x, hx, _⟩ := he
      exact List.ne_nil_of_mem hx
    have hnall : ¬ ∀ issue, issue ∈ allIssues U config files → issue.Severity ≠ "error" := by
      obtain ⟨x, hx, hs⟩ := he
      exact fun h => h x hx hs
    by_cases hf : config.ExitOnError = true
    · simp [hany.2 he, hf, he, hne]
    · have hf' : config.ExitOnError = false := by simpa using hf
      simp [hany.2 he, hf', hpos.2 hne, hne, he]
  · have hfalse : (allIssues U config files).any
        (fun issue => decide (issue.Severity = "error")) = false := by
      rw [← Bool.not_eq_true, hany]
      exact he
    have hall : ∀ issue, issue ∈ allIssues U config files → issue.Severity ≠ "error" :=
      fun x hx hs => he ⟨x, hx, hs⟩
    by_cases hne : allIssues U config files = []
    · have hz : ¬ ((allIssues U config files).length : Int) > 0 := by simp [hne]
      simp [hfalse, hz, hne]
    · simp only [hfalse, Bool.false_and, hpos.2 hne, if_true, he, false_and]
      simp [hne]
      exact Or.inl hall

/-- C14: for every byte string `s` and integer `maxLen`, if the length of `s` is
at most `maxLen` then `truncateString` returns `s` unchanged. -/
theorem truncateString_unchanged (s : List UInt8) (maxLen : Int)
    (h : (s.length : Int) ≤ maxLen) : truncateString s maxLen = s := by
  simp [truncateString, h]

/-- Witness of C14 on the string `Hello` with `maxLen = 10`. -/
theorem truncateString_unchanged_witness :
    ((utf8Bytes ['H', 'e', 'l', 'l', 'o']).length : Int) ≤ 10
      ∧ truncateString (utf8Bytes ['H', 'e', 'l', 'l', 'o']) 10
          = utf8Bytes ['H', 'e', 'l', 'l', 'o'] :=
  ⟨by decide, truncateString_unchanged (utf8Bytes ['H', 'e', 'l', 'l', 'o']) 10 (by decide)⟩

/-- C15, counterexample: the string of six letters `é` is longer than 5, and
its truncation to `maxLen = 5` is `é...`: one character, not the first two,
before the ellipsis, and four characters in all. -/
theorem truncateString_cuts_bytes_counterexample :
    ((['é', 'é', 'é', 'é', 'é', 'é'] : Line).length : Int) > 5
      ∧ truncateString (utf8Bytes ['é', 'é', 'é', 'é', 'é', 'é']) 5
          = utf8Bytes ['é', '.', '.', '.']
      ∧ truncateString (utf8Bytes ['é', 'é', 'é', 'é', 'é', 'é']) 5
          ≠ utf8Bytes ((['é', 'é', 'é', 'é', 'é', 'é'] : Line).take 2 ++ ['.', '.', '.'])
      ∧ ((['é', '.', '.', '.'] : Line).length : Int) ≠ 5 := by
  refine ⟨by decide, by decide, by decide, by decide⟩

/-- C15, amended: for every byte string `s` and every `maxLen` greater than 3,
if `s` has more than `maxLen` bytes then `truncateString` is the first
`maxLen - 3` bytes of `s` followed by the three bytes of `...`, and its length
in bytes is exactly `maxLen`. -/
theorem truncateString_long (s : List UInt8) (maxLen : Int) (h3 : 3 < maxLen)
    (hlen : maxLen < (s.length : Int)) :
    truncateString s maxLen = s.take (maxLen - 3).toNat ++ [46, 46, 46]
      ∧ ((truncateString s maxLen).length : Int) = maxLen := by
  have e : truncateString s maxLen = s.take (maxLen - 3).toNat ++ [46, 46, 46] := by
    have h1 : ¬ (s.length : Int) ≤ maxLen := by omega
    have h2 : ¬ maxLen ≤ 3 := by omega
    simp [truncateString, h1, h2, ellipsis]
  refine ⟨e, ?_⟩
  rw [e, List.length_append, List.length_take]
  simp only [List.length_cons, List.length_nil]
  omega

/-- Witness of C15 (amended) on the string `Hello World` with `maxLen = 8`. -/
theorem truncateString_long_witness :
    (3 : Int) < 8
      ∧ (8 : Int) < ((utf8Bytes ['H', 'e', 'l', 'l', 'o', ' ', 'W', 'o', 'r', 'l', 'd']).length : Int)
      ∧ truncateString (utf8Bytes ['H', 'e', 'l', 'l', 'o', ' ', 'W', 'o', 'r', 'l', 'd']) 8
          = (utf8Bytes ['H', 'e', 'l', 'l', 'o', ' ', 'W', 'o', 'r', 'l', 'd']).take
              ((8 : Int) - 3).toNat ++ [46, 46, 46]
      ∧ ((truncateString (utf8Bytes ['H', 'e', 'l', 'l', 'o', ' ', 'W', 'o', 'r', 'l', 'd'])
            8).length : Int) = 8 :=
  ⟨by decide, by decide,
    truncateString_long (utf8Bytes ['H', 'e', 'l', 'l', 'o', ' ', 'W', 'o', 'r', 'l', 'd']) 8
      (by decide) (by decide)⟩

/-- C16, counterexample: with `maxLen = 3` the empty string and the string `ab`
are returned unchanged, not replaced by `...`. -/
theorem truncateString_short_counterexample :
    truncateString [] 3 = []
      ∧ truncateString (utf8Bytes ['a', 'b']) 3 = utf8Bytes ['a', 'b']
      ∧ truncateString (utf8Bytes ['a', 'b']) 3 ≠ utf8Bytes ['.', '.', '.'] := by
  refine ⟨by decide, by decide, by decide⟩

/-- C16, amended: for every byte string `s` and every `maxLen` less than or
equal to 3, if `s` has more than `maxLen` bytes then `truncateString` is
exactly the three bytes of `...`. -/
theorem truncateString_small_maxLen (s : List UInt8) (maxLen : Int) (h3 : maxLen ≤ 3)
    (hlen : maxLen < (s.length : Int)) :
    truncateString s maxLen = [46, 46, 46] := by
  have h1 : ¬ (s.length : Int) ≤ maxLen := by omega
  simp [truncateString, h1, h3, ellipsis]

/-- Witness of C16 (amended) on the string `Hello` with `maxLen = 0`. -/
theorem truncateString_small_maxLen_witness :
    (0 : Int) ≤ 3
      ∧ (0 : Int) < ((utf8Bytes ['H', 'e', 'l', 'l', 'o']).length : Int)
      ∧ truncateString (utf8Bytes ['H', 'e', 'l', 'l', 'o']) 0 = [46, 46, 46] :=
  ⟨by decide, by decide,
    truncateString_small_maxLen (utf8Bytes ['H', 'e', 'l', 'l', 'o']) 0 (by decide) (by decide)⟩

/-- C11: for every sequence of lines and every configuration, the line numbers
of the issue list that `scanFile` builds never decrease; with the default
registry the list is moreover strictly ordered by line and, within a line, by
the order of the checks: `line_length` (rank 0), then `smart_quotes`,
`smart_single_quotes`, `backticks_in_strings`, `mixed_quotes`,
`unmatched_quotes` (ranks 1 to 5), then `unbalanced_quotes` (rank 6), and no
other kind occurs. -/
theorem scan_issue_order (U : UnicodeTables) (config : Config) (path : String)
    (lines : List Line) :
    (scanFile U path (.content lines none) config).Issues.Pairwise
        (fun a b => a.Line ≤ b.Line)
      ∧ (config.QuotationMarks = initializeQuotationMarks →
          (scanFile U path (.content lines none) config).Issues.Pairwise
              (fun a b => a.Line < b.Line
                ∨ (a.Line = b.Line ∧ kindRank a.Typ < kindRank b.Typ))
            ∧ ∀ issue, issue ∈ (scanFile U path (.content lines none) config).Issues →
                kindRank issue.Typ < 7) := by
  rw [scanFile_issues]
  simp only [List.append_nil]
  refine ⟨scanFrom_pairwise_line U config lines 0, fun hq => ⟨?_, ?_⟩⟩
  · exact scanFrom_pairwise_before U config hq lines 0
  · intro issue hi
    obtain ⟨n, line, _, hm⟩ := mem_scanFrom U config lines 0 issue hi
    exact ((scanLine_ordered U config hq n line).2 issue hm).2

/-- Witness of C11 on a file of two lines with maximum 2: the first line gets
`line_length`, `smart_quotes`, `unmatched_quotes` and `unbalanced_quotes`, the
second `line_length`. -/
theorem scan_issue_order_witness :
    (scanFile sampleTables "f" (.content [['a', 'b', '"'], ['a', 'b', 'c']] none)
        (defaultConfig 2 true)).Issues.map (fun issue => (issue.Line, issue.Typ))
        = [(1, "line_length"), (1, "smart_quotes"), (1, "unmatched_quotes"),
            (1, "unbalanced_quotes"), (2, "line_length")]
      ∧ (scanFile sampleTables "f" (.content [['a', 'b', '"'], ['a', 'b', 'c']] none)
          (defaultConfig 2 true)).Issues.Pairwise
            (fun a b => a.Line < b.Line
              ∨ (a.Line = b.Line ∧ kindRank a.Typ < kindRank b.Typ)) :=
  ⟨by decide,
    ((scan_issue_order sampleTables (defaultConfig 2 true) "f"
      [['a', 'b', '"'], ['a', 'b', 'c']]).2 rfl).1⟩

/-- C12: with the default registry, every issue produced by scanning the lines
of a file has severity `warning` or `error`; its severity is `error` if and only
if its kind is `unbalanced_quotes`; `line_length` issues and the issues of the
five registry detectors have severity `warning`. -/
theorem severity_of_line_issues (U : UnicodeTables) (config : Config)
    (hq : config.QuotationMarks = initializeQuotationMarks) (path : String)
    (lines : List Line) (issue : Issue)
    (h : issue ∈ (scanFile U path (.content lines none) config).Issues) :
    (issue.Severity = "warning" ∨ issue.Severity = "error")
      ∧ (issue.Severity = "error" ↔ issue.Typ = "unbalanced_quotes")
      ∧ (issue.Typ ∈ ["line_length", "smart_quotes", "smart_single_quotes",
            "backticks_in_strings", "mixed_quotes", "unmatched_quotes"] →
          issue.Severity = "warning") := by
  rw [scanFile_issues] at h
  simp only [List.append_nil] at h
  obtain ⟨n, line, _, hm⟩ := mem_scanFrom U config lines 0 issue h
  simp only [scanLine, List.mem_append] at hm
  rcases hm with (hm | hm) | hm
  · obtain ⟨_, ht, hs⟩ := mem_lengthIssues config n line issue hm
    rw [ht, hs]
    decide
  · obtain ⟨_, hs, _⟩ := line_of_mem_markIssues U config n line issue hm
    have ht := typ_of_mem_markIssues U config hq n line issue hm
    rw [hs]
    rcases ht with e | e | e | e | e <;> rw [e] <;> decide
  · obtain ⟨_, ht, hs⟩ := mem_balanceIssues n line issue hm
    rw [ht, hs]
    decide

/-- Witness of C12 on the `unbalanced_quotes` issue of the one-line file `"a`. -/
theorem severity_of_line_issues_witness :
    unbalancedSample
        ∈ (scanFile sampleTables "f" (.content [['"', 'a']] none) (defaultConfig 120 true)).Issues
      ∧ (unbalancedSample.Severity = "warning" ∨ unbalancedSample.Severity = "error")
      ∧ (unbalancedSample.Severity = "error" ↔ unbalancedSample.Typ = "unbalanced_quotes")
      ∧ (unbalancedSample.Typ ∈ ["line_length", "smart_quotes", "smart_single_quotes",
            "backticks_in_strings", "mixed_quotes", "unmatched_quotes"] →
          unbalancedSample.Severity = "warning") :=
  ⟨by decide,
    severity_of_line_issues sampleTables (defaultConfig 120 true) rfl "f" [['"', 'a']]
      unbalancedSample (by decide)⟩

/-- C20: the lines are analysed independently: for all sequences of lines `xs`
and `ys` and every configuration, the issues of scanning `xs` followed by `ys`
are the issues of scanning `xs`, followed by the issues of scanning `ys` with
each line number increased by the length of `xs`. -/
theorem scan_append (U : UnicodeTables) (config : Config) (path : String)
    (xs ys : List Line) :
    (scanFile U path (.content (xs ++ ys) none) config).Issues
      = (scanFile U path (.content xs none) config).Issues
        ++ (scanFile U path (.content ys none) config).Issues.map
            (fun issue => { issue with Line := issue.Line + xs.length }) := by
  rw [scanFile_issues, scanFile_issues, scanFile_issues]
  simp only [List.append_nil]
  rw [scanFrom_append, scanFrom_shift U config xs.length ys 0]
  rfl

/-- C18: for every line `s`, the pattern of the `mixed_quotes` detector matches if
and only if the line has two straight double quotes with no straight double
quote between them and a straight single quote between them, or two straight
single quotes with no straight single quote between them and a straight double
quote between them. -/
theorem mixed_quotes_match_iff (s : Line) :
    mixedQuotesMark.Pattern.MatchString s = true
      ↔ (∃ i k j : Nat, i < k ∧ k < j ∧ s[i]? = some '"' ∧ s[j]? = some '"'
            ∧ s[k]? = some '\'' ∧ ∀ m : Nat, i < m → m < j → s[m]? ≠ some '"')
        ∨ (∃ i k j : Nat, i < k ∧ k < j ∧ s[i]? = some '\'' ∧ s[j]? = some '\''
            ∧ s[k]? = some '"' ∧ ∀ m : Nat, i < m → m < j → s[m]? ≠ some '\'') := by
  rw [matchString_iff_mem]
  show (∃ i, i ≤ s.length ∧ ∃ e, e ∈ (Regex.alt _ _).ends s i) ↔ _
  simp only [mem_ends_alt, mem_ends_quoted s '"' '\'' (by decide),
    mem_ends_quoted s '\'' '"' (by decide)]
  constructor
  · rintro ⟨i, _, e, (⟨k, j, h1, h2, h3, h4, h5, h6, _⟩ | ⟨k, j, h1, h2, h3, h4, h5, h6, _⟩)⟩
    · exact Or.inl ⟨i, k, j, h1, h2, h3, h5, h4, h6⟩
    · exact Or.inr ⟨i, k, j, h1, h2, h3, h5, h4, h6⟩
  · rintro (⟨i, k, j, h1, h2, h3, h5, h4, h6⟩ | ⟨i, k, j, h1, h2, h3, h5, h4, h6⟩)
    · have hlt : i < s.length := (List.getElem?_eq_some_iff.1 h3).1
      exact ⟨i, by omega, j + 1, Or.inl ⟨k, j, h1, h2, h3, h4, h5, h6, rfl⟩⟩
    · have hlt : i < s.length := (List.getElem?_eq_some_iff.1 h3).1
      exact ⟨i, by omega, j + 1, Or.inr ⟨k, j, h1, h2, h3, h4, h5, h6, rfl⟩⟩

/-- C19: for every line, the pattern of the `unmatched_quotes` detector matches
if and only if the line contains exactly one straight double quote or exactly
one straight single quote. -/
theorem unmatched_quotes_match_iff (line : Line) :
    unmatchedQuotesMark.Pattern.MatchString line = true
      ↔ line.count '"' = 1 ∨ line.count '\'' = 1 := by
  rw [matchString_iff_mem]
  show (∃ i, i ≤ line.length ∧ ∃ e, e ∈ (Regex.alt _ _).ends line i) ↔ _
  simp only [mem_ends_alt, mem_ends_anchored, exists_unique_position_iff_count]
  constructor
  · rintro ⟨i, _, e, (⟨_, _, h⟩ | ⟨_, _, h⟩)⟩
    · exact Or.inl h
    · exact Or.inr h
  · rintro (h | h)
    · exact ⟨0, Nat.zero_le _, line.length, Or.inl ⟨rfl, rfl, h⟩⟩
    · exact ⟨0, Nat.zero_le _, line.length, Or.inr ⟨rfl, rfl, h⟩⟩

/-- C17, counterexample: in the line `é"` the only match of the pattern `"` is
the second character, and `findFirstMatch` returns 3, the 1-based position of
its first byte. -/
theorem findFirstMatch_counts_bytes_counterexample :
    (Regex.lit '"').ends ['é', '"'] 0 = []
      ∧ (Regex.lit '"').ends ['é', '"'] 1 = [2]
      ∧ findFirstMatch ['é', '"'] (Regex.lit '"') = 3 := by
  refine ⟨by decide, by decide, by decide⟩

/-- C17, amended: for every line and pattern, `findFirstMatch` returns 1 when
the pattern has no match in the line, and otherwise 1 plus the offset in bytes
of the start of the leftmost match; when every rune before that match is encoded
in one byte (as ASCII is), this is the 1-based index of the first character of
the match. -/
theorem findFirstMatch_spec (pattern : Regex) (s : Line) :
    (pattern.MatchString s = false → findFirstMatch s pattern = 1)
      ∧ (pattern.MatchString s = true →
          ∃ i, i ≤ s.length ∧ pattern.ends s i ≠ []
            ∧ (∀ k, k < i → pattern.ends s k = [])
            ∧ findFirstMatch s pattern = goLen (s.take i) + 1
            ∧ ((∀ c, c ∈ s.take i → c.utf8Size = 1) →
                findFirstMatch s pattern = (i : Int) + 1)) := by
  rcases findStringIndex_cases pattern s with ⟨h1, h2⟩ | ⟨i, j, rest, hi, he, hmin, hm, hf⟩
  · refine ⟨fun _ => by simp [findFirstMatch, h2], fun h => ?_⟩
    rw [h1] at h
    exact absurd h (by decide)
  · refine ⟨fun h => ?_, fun _ => ?_⟩
    · rw [hm] at h
      exact absurd h (by decide)
    · have hv : findFirstMatch s pattern = goLen (s.take i) + 1 := by
        simp [findFirstMatch, hf]
      refine ⟨i, hi, by simp [he], hmin, hv, fun hascii => ?_⟩
      rw [hv, goLen_of_one_byte_runes _ hascii, List.length_take]
      congr 1
      exact_mod_cast Nat.min_eq_left hi

/-- Witness of C17 (amended) on the tests of `TestFindFirstMatch`: the pattern
`"` in the lines `Hello "world"` (column 7) and `Hello world` (no match,
column 1). -/
theorem findFirstMatch_spec_witness :
    (Regex.lit '"').MatchString
        ['H', 'e', 'l', 'l', 'o', ' ', '"', 'w', 'o', 'r', 'l', 'd', '"'] = true
      ∧ findFirstMatch ['H', 'e', 'l', 'l', 'o', ' ', '"', 'w', 'o', 'r', 'l', 'd', '"']
          (Regex.lit '"') = 7
      ∧ (Regex.lit '"').MatchString
          ['H', 'e', 'l', 'l', 'o', ' ', 'w', 'o', 'r', 'l', 'd'] = false
      ∧ findFirstMatch ['H', 'e', 'l', 'l', 'o', ' ', 'w', 'o', 'r', 'l', 'd']
          (Regex.lit '"') = 1 :=
  ⟨by decide, by decide, by decide,
    (findFirstMatch_spec (Regex.lit '"')
      ['H', 'e', 'l', 'l', 'o', ' ', 'w', 'o', 'r', 'l', 'd']).1 (by decide)⟩

/-- C21: for every line `s` that contains none of the curly quotes U+201C,
U+201D, U+2018, U+2019, if the pattern of the `unmatched_quotes` detector
matches `s` then `hasBalancedQuotes` is false on `s`; hence, with the default
registry, every `unmatched_quotes` issue that scanning reports on such a line
comes with an `unbalanced_quotes` issue of severity `error` on the same line. -/
theorem unmatched_implies_unbalanced (U : UnicodeTables) (config : Config)
    (hq : config.QuotationMarks = initializeQuotationMarks) (s : Line)
    (hc : ∀ r, r ∈ s → r ∉ ['“', '”', '‘', '’']) :
    (unmatchedQuotesMark.Pattern.MatchString s = true → hasBalancedQuotes s = false)
      ∧ ∀ (lineNum : Int) (issue : Issue), issue ∈ scanLine U config lineNum s →
          issue.Typ = "unmatched_quotes" →
          ∃ other, other ∈ scanLine U config lineNum s ∧ other.Typ = "unbalanced_quotes"
            ∧ other.Severity = "error" ∧ other.Line = issue.Line := by
  refine ⟨unbalanced_of_unmatchedQuotes_match s hc, ?_⟩
  intro lineNum issue hi ht
  have hm := match_of_unmatched_issue U config hq lineNum s issue hi ht
  have hb := unbalanced_of_unmatchedQuotes_match s hc hm
  have hl := line_of_mem_scanLine U config lineNum s issue hi
  refine ⟨{ Line := lineNum, Column := 1, Typ := "unbalanced_quotes",
            Message := "Unbalanced quotes detected",
            Context := truncateString (utf8Bytes s) 80, Severity := "error" }, ?_, rfl, rfl,
    hl.symm⟩
  simp only [scanLine, List.mem_append]
  right
  simp [balanceIssues, hb]

/-- Witness of C21 on the line `"a`, which holds one straight double quote and
no curly quote: the pattern matches, the line is unbalanced, and the scan
reports both kinds on line 1. -/
theorem unmatched_implies_unbalanced_witness :
    (∀ r, r ∈ (['"', 'a'] : Line) → r ∉ ['“', '”', '‘', '’'])
      ∧ unmatchedQuotesMark.Pattern.MatchString ['"', 'a'] = true
      ∧ hasBalancedQuotes ['"', 'a'] = false
      ∧ (scanLine sampleTables (defaultConfig 120 true) 1 ['"', 'a']).map
          (fun issue => (issue.Line, issue.Typ, issue.Severity))
          = [(1, "smart_quotes", "warning"), (1, "unmatched_quotes", "warning"),
              (1, "unbalanced_quotes", "error")] :=
  ⟨by decide, by decide,
    (unmatched_implies_unbalanced sampleTables (defaultConfig 120 true) rfl ['"', 'a']
      (by decide)).1 (by decide),
    by decide⟩

end Skanner
